import Mathlib

/-! Levant `api_layer.js`: a shallow embedding and its verified properties.

The embedding follows `src/www/api_layer.js`.

* A JavaScript string is modelled by its sequence of Unicode scalar values
  (`List Char`), i.e. strings are taken to be well formed UTF-16.
* A thrown `Error` is modelled by its message; a function that may throw
  returns `Except Err _`.
* The browser built-ins used by the file (`atob`, `decodeURIComponent`,
  `String.prototype.slice/startsWith/endsWith/includes/replace`,
  `Number.prototype.toString(16)`) are modelled after their standards
  (WHATWG forgiving-base64 decode, ECMA-262 `Decode`).
-/

namespace Levant

/-! ## Strings -/

/-- A JavaScript string, as the list of its Unicode scalar values. -/
abbrev JSString := List Char

/-- The message carried by a thrown `Error`. -/
abbrev Err := JSString

/-- The method `String.prototype.startsWith`. -/
def startsWith (s p : JSString) : Bool := p.isPrefixOf s

/-- The method `String.prototype.endsWith`. -/
def endsWith (s p : JSString) : Bool := p.isSuffixOf s

/-- The method `String.prototype.includes`: `p` occurs in `s` at some position. -/
def includes : JSString → JSString → Bool
  | [], p => p.isPrefixOf []
  | c :: s, p => p.isPrefixOf (c :: s) || includes s p

/-- The method `String.prototype.slice(start, stop)`; a negative index counts from the end. -/
def slice (s : JSString) (start : Int) (stop : Option Int) : JSString :=
  let len : Int := s.length
  let clamp : Int → Nat := fun i => if i < 0 then (max (len + i) 0).toNat else (min i len).toNat
  let lo := clamp start
  let hi := match stop with
    | none => s.length
    | some e => clamp e
  (s.take hi).drop lo

/-- Characters the regular-expression atom `.` does not match. -/
def isLineTerminator (c : Char) : Bool :=
  c.toNat = 0x0A || c.toNat = 0x0D || c.toNat = 0x2028 || c.toNat = 0x2029

/-- The tail `.*?;base64,` of the pattern `/^data:.*?;base64,/`, matched lazily
from the current position: the remainder of the input after the match, if any. -/
def matchLazyMarker : JSString → Option JSString
  | [] => none
  | c :: rest =>
    if startsWith (c :: rest) ";base64,".toList then some ((c :: rest).drop 8)
    else if isLineTerminator c then none
    else matchLazyMarker rest

/-- The expression `att.data.replace(/^data:.*?;base64,/, '')` (the local `cleanData`). -/
def cleanData (data : JSString) : JSString :=
  if startsWith data "data:".toList then
    match matchLazyMarker (data.drop 5) with
    | some rest => rest
    | none => data
  else data

/-! ## `atob` (WHATWG forgiving-base64 decode) -/

/-- ASCII whitespace: TAB, LF, FF, CR, SPACE. -/
def isAsciiWhitespace (c : Char) : Bool :=
  c.toNat = 0x09 || c.toNat = 0x0A || c.toNat = 0x0C || c.toNat = 0x0D || c.toNat = 0x20

/-- The base64 alphabet of RFC 4648, table 1. -/
def base64Alphabet : List Char :=
  "ABCDEFGHIJKLMNOPQRSTUVWXYZabcdefghijklmnopqrstuvwxyz0123456789+/".toList

/-- The 6-bit value of a base64 character, if it is in the alphabet. -/
def sextetOf (c : Char) : Option Nat :=
  let i := base64Alphabet.indexOf c
  if i < 64 then some i else none

/-- The 6-bit values of a string of base64 characters; `none` if a character is outside
the alphabet. -/
def sextets : JSString → Option (List Nat)
  | [] => some []
  | c :: rest =>
    match sextetOf c, sextets rest with
    | some v, some vs => some (v :: vs)
    | _, _ => none

/-- Regroups 6-bit values into bytes: 24 bits give three bytes, a final 12 bits give one
byte (4 bits discarded), a final 18 bits give two bytes (2 bits discarded). -/
def decodeSextets : List Nat → List Nat
  | a :: b :: c :: d :: rest =>
    (a * 4 + b / 16) :: ((b % 16) * 16 + c / 4) :: ((c % 4) * 64 + d) :: decodeSextets rest
  | [a, b, c] => [a * 4 + b / 16, (b % 16) * 16 + c / 4]
  | [a, b] => [a * 4 + b / 16]
  | _ => []

/-- The function `atob`; the resulting binary string is given by its character codes (bytes). -/
def atob (str : JSString) : Except Err (List Nat) :=
  let data := str.filter (fun c => !isAsciiWhitespace c)
  let data :=
    if data.length % 4 = 0 then
      if endsWith data "==".toList then slice data 0 (some (-2))
      else if endsWith data "=".toList then slice data 0 (some (-1))
      else data
    else data
  if data.length % 4 = 1 then .error "InvalidCharacterError".toList
  else
    match sextets data with
    | none => .error "InvalidCharacterError".toList
    | some vs => .ok (decodeSextets vs)

/-! ## `decodeURIComponent` (ECMA-262 `Decode` with an empty reserved set) -/

/-- The method `Number.prototype.toString(16)` on a non-negative integer. -/
def toString16 (n : Nat) : JSString := Nat.toDigits 16 n

/-- The callback `c => '%' + ('00' + c.charCodeAt(0).toString(16)).slice(-2)`, applied to the
character with code `code`. -/
def percentByte (code : Nat) : JSString :=
  '%' :: slice ("00".toList ++ toString16 code) (-2) none

/-- The value of a hexadecimal digit. -/
def hexVal (c : Char) : Option Nat :=
  if 48 ≤ c.toNat ∧ c.toNat ≤ 57 then some (c.toNat - 48)
  else if 97 ≤ c.toNat ∧ c.toNat ≤ 102 then some (c.toNat - 87)
  else if 65 ≤ c.toNat ∧ c.toNat ≤ 70 then some (c.toNat - 55)
  else none

/-- The two hexadecimal digits at the head of the input, as a byte. -/
def parseHexOctet : JSString → Option Nat
  | h :: l :: _ =>
    match hexVal h, hexVal l with
    | some a, some b => some (16 * a + b)
    | _, _ => none
  | _ => none

/-- The number of leading 1 bits of a byte (5 stands for "more than 4"). -/
def leadingOnes (b : Nat) : Nat :=
  if b < 0x80 then 0 else if b < 0xC0 then 1 else if b < 0xE0 then 2
  else if b < 0xF0 then 3 else if b < 0xF8 then 4 else 5

/-- Reads `j` further escapes `%XX`: their bytes and the rest of the input. -/
def continuationOctets : Nat → JSString → Option (List Nat × JSString)
  | 0, s => some ([], s)
  | j + 1, c :: s =>
    if c = '%' then
      match parseHexOctet s, continuationOctets j (s.drop 2) with
      | some b, some (bs, r) => some (b :: bs, r)
      | _, _ => none
    else none
  | _ + 1, [] => none

/-- A continuation byte `80..BF`. -/
def isContinuation (b : Nat) : Bool := 0x80 ≤ b && b ≤ 0xBF

/-- The code point of a multi-byte sequence that is well-formed UTF-8
(Unicode standard, table 3-7); `none` otherwise. -/
def utf8CodePoint : List Nat → Option Nat
  | [b0, b1] =>
    if 0xC2 ≤ b0 ∧ b0 ≤ 0xDF ∧ isContinuation b1 then some ((b0 % 32) * 64 + b1 % 64) else none
  | [b0, b1, b2] =>
    if ((b0 = 0xE0 ∧ 0xA0 ≤ b1 ∧ b1 ≤ 0xBF) ∨ (0xE1 ≤ b0 ∧ b0 ≤ 0xEC ∧ isContinuation b1) ∨
        (b0 = 0xED ∧ 0x80 ≤ b1 ∧ b1 ≤ 0x9F) ∨ (0xEE ≤ b0 ∧ b0 ≤ 0xEF ∧ isContinuation b1)) ∧
        isContinuation b2 then
      some ((b0 % 16) * 4096 + (b1 % 64) * 64 + b2 % 64)
    else none
  | [b0, b1, b2, b3] =>
    if ((b0 = 0xF0 ∧ 0x90 ≤ b1 ∧ b1 ≤ 0xBF) ∨ (0xF1 ≤ b0 ∧ b0 ≤ 0xF3 ∧ isContinuation b1) ∨
        (b0 = 0xF4 ∧ 0x80 ≤ b1 ∧ b1 ≤ 0x8F)) ∧ isContinuation b2 ∧ isContinuation b3 then
      some ((b0 % 8) * 262144 + (b1 % 64) * 4096 + (b2 % 64) * 64 + b3 % 64)
    else none
  | _ => none

/-- The loop of `Decode`: every iteration consumes at least one character, so a fuel equal to
the length of the input is never exhausted. -/
def decodeLoop : Nat → JSString → Except Err JSString
  | _, [] => .ok []
  | 0, _ :: _ => .error "URIError".toList
  | fuel + 1, c :: rest =>
    if c ≠ '%' then (decodeLoop fuel rest).map (c :: ·)
    else
      match parseHexOctet rest with
      | none => .error "URIError".toList
      | some b =>
        let n := leadingOnes b
        if n = 0 then (decodeLoop fuel (rest.drop 2)).map (Char.ofNat b :: ·)
        else if n = 1 ∨ n > 4 then .error "URIError".toList
        else
          match continuationOctets (n - 1) (rest.drop 2) with
          | none => .error "URIError".toList
          | some (octets, rest') =>
            match utf8CodePoint (b :: octets) with
            | none => .error "URIError".toList
            | some v => (decodeLoop fuel rest').map (Char.ofNat v :: ·)

/-- The function `decodeURIComponent`. -/
def decodeURIComponent (s : JSString) : Except Err JSString := decodeLoop s.length s

/-! ## `Utils` -/

/-- The function `Utils.b64DecodeUnicode`: the `catch` branch returns the argument unchanged. -/
def Utils.b64DecodeUnicode (str : JSString) : JSString :=
  match (atob str).bind (fun bin => decodeURIComponent (bin.map percentByte).flatten) with
  | .ok r => r
  | .error _ => str

/-- An attachment `{ name, type, data }`. -/
structure Attachment where
  name : JSString
  type : JSString
  data : JSString
  deriving DecidableEq, Repr

/-- An entry `{ mime_type, data }` of `mediaParts`. -/
structure MediaPart where
  mime_type : JSString
  data : JSString
  deriving DecidableEq, Repr

/-- The object `{ textPart, mediaParts }` returned by `processAttachments`. -/
structure Processed where
  textPart : JSString
  mediaParts : List MediaPart
  deriving DecidableEq, Repr

/-- The test of the `else if` branch of `processAttachments`. -/
def isTextFile (att : Attachment) : Bool :=
  startsWith att.type "text/".toList || endsWith att.name ".txt".toList ||
    endsWith att.name ".md".toList || endsWith att.name ".json".toList ||
    endsWith att.name ".py".toList

/-- The notice appended for an image when `allowImage` is false. -/
def imageIgnoredNotice (name : JSString) : JSString :=
  "\n[System: User uploaded image '".toList ++ name ++
    "', but current model does not support vision. Image ignored.]\n".toList

/-- The delimiter-wrapped content appended for a text file. -/
def fileSection (name content : JSString) : JSString :=
  "\n\n=== FILE: ".toList ++ name ++ " ===\n".toList ++ content ++ "\n".toList

/-- The notice appended for any other attachment. -/
def skippedNotice (name type : JSString) : JSString :=
  "\n[System: File '".toList ++ name ++ "' (".toList ++ type ++
    ") skipped. Native App mode currently supports Images and Text files only.]\n".toList

/-- The body of the `forEach` callback of `processAttachments`, acting on the two
accumulators `textPart` and `mediaParts`. -/
def processOne (allowImage : Bool) (acc : Processed) (att : Attachment) : Processed :=
  let cleaned := cleanData att.data
  if startsWith att.type "image/".toList then
    if allowImage then
      { acc with mediaParts := acc.mediaParts ++ [{ mime_type := att.type, data := cleaned }] }
    else
      { acc with textPart := acc.textPart ++ imageIgnoredNotice att.name }
  else if isTextFile att then
    let content := Utils.b64DecodeUnicode cleaned
    { acc with textPart := acc.textPart ++ fileSection att.name content }
  else
    { acc with textPart := acc.textPart ++ skippedNotice att.name att.type }

/-- The function `Utils.processAttachments`; `none` stands for a missing or non-array
argument. -/
def Utils.processAttachments (attachments : Option (List Attachment)) (allowImage : Bool) :
    Processed :=
  match attachments with
  | none => { textPart := [], mediaParts := [] }
  | some atts => atts.foldl (processOne allowImage) { textPart := [], mediaParts := [] }

/-! ## `NativeAI.callOpenAICompatible` -/

/-- The generation request `req` (see the data model of the specification). -/
structure GenerationRequest where
  provider : JSString
  model : JSString
  apiKey : JSString
  baseUrl : Option JSString
  systemPrompt : JSString
  context : JSString
  userPrompt : JSString
  attachments : Option (List Attachment)
  deriving DecidableEq, Repr

/-- A JavaScript value as found in a parsed HTTP response body. A number is kept as its
literal text. -/
inductive JSValue where
  | undefined
  | null
  | bool (b : Bool)
  | num (literal : JSString)
  | str (s : JSString)
  | arr (items : List JSValue)
  | obj (fields : List (JSString × JSValue))

/-- Property access `v.key`: a `TypeError` on `undefined` and `null`, `undefined` for a
property that is absent. -/
def JSValue.prop (v : JSValue) (key : JSString) : Except Err JSValue :=
  match v with
  | .undefined => .error "TypeError".toList
  | .null => .error "TypeError".toList
  | .obj fields => .ok ((fields.lookup key).getD .undefined)
  | _ => .ok .undefined

/-- Indexed access `v[i]`. -/
def JSValue.index (v : JSValue) (i : Nat) : Except Err JSValue :=
  match v with
  | .undefined => .error "TypeError".toList
  | .null => .error "TypeError".toList
  | .arr items => .ok (items.getD i .undefined)
  | .obj fields => .ok ((fields.lookup (Nat.toDigits 10 i)).getD .undefined)
  | .str s => .ok (match s.get? i with
      | some c => .str [c]
      | none => .undefined)
  | _ => .ok .undefined

/-- The response object resolved by `fetch`. -/
structure Response where
  ok : Bool
  status : Nat
  text : JSString
  json : Except Err JSValue

/-- A part of the `content` array of a chat message. -/
inductive ContentPart where
  | text (text : JSString)
  | image_url (url : JSString)
  deriving DecidableEq, Repr

/-- The `content` of a chat message: a plain string or an array of parts. -/
inductive Content where
  | plain (text : JSString)
  | parts (items : List ContentPart)
  deriving DecidableEq, Repr

/-- A chat message `{ role, content }`. -/
structure ChatMessage where
  role : JSString
  content : Content
  deriving DecidableEq, Repr

/-- The arguments of the `fetch` call of `callOpenAICompatible`; `temperature` is the
literal `0.7`. -/
structure OpenAIFetch where
  url : JSString
  method : JSString
  headers : List (JSString × JSString)
  model : JSString
  messages : List ChatMessage
  temperature : JSString
  deriving DecidableEq, Repr

/-- A function that awaits one `fetch`: the request it sends and what it does with the
response. -/
structure FetchCall (ρ α : Type) where
  request : ρ
  onResponse : Response → Except Err α

/-- The base URL after the two normalisation statements of `callOpenAICompatible`. -/
def normalizeBaseUrl (req : GenerationRequest) : JSString :=
  let baseUrl :=
    match req.baseUrl with
    | some u => if u.isEmpty then "https://api.openai.com/v1".toList else u
    | none => "https://api.openai.com/v1".toList
  let baseUrl := if endsWith baseUrl "/".toList then slice baseUrl 0 (some (-1)) else baseUrl
  if !includes baseUrl "/chat/completions".toList then baseUrl ++ "/chat/completions".toList
  else baseUrl

/-- The array `messages` built by `callOpenAICompatible`. -/
def chatMessages (req : GenerationRequest) (promptText : JSString)
    (mediaParts : List MediaPart) : List ChatMessage :=
  let messages := [{ role := "system".toList, content := .plain req.systemPrompt : ChatMessage }]
  if mediaParts.length > 0 then
    let contentArr := [ContentPart.text promptText] ++ mediaParts.map (fun m =>
      ContentPart.image_url ("data:".toList ++ m.mime_type ++ ";base64,".toList ++ m.data))
    messages ++ [{ role := "user".toList, content := .parts contentArr }]
  else
    messages ++ [{ role := "user".toList, content := .plain promptText }]

/-- The function `NativeAI.callOpenAICompatible`. -/
def NativeAI.callOpenAICompatible (req : GenerationRequest) (promptText : JSString)
    (mediaParts : List MediaPart) : FetchCall OpenAIFetch JSValue where
  request :=
    { url := normalizeBaseUrl req
      method := "POST".toList
      headers := [("Content-Type".toList, "application/json".toList),
        ("Authorization".toList, "Bearer ".toList ++ req.apiKey)]
      model := req.model
      messages := chatMessages req promptText mediaParts
      temperature := "0.7".toList }
  onResponse := fun response =>
    if !response.ok then
      .error ("API Error ".toList ++ Nat.toDigits 10 response.status ++ ": ".toList ++
        response.text)
    else do
      let json ← response.json
      let choices ← json.prop "choices".toList
      let first ← choices.index 0
      let message ← first.prop "message".toList
      let content ← message.prop "content".toList
      pure (.obj [("result".toList, content)])

/-! ## `LevantAPI.generateAI` -/

/-- The lower-case mapping of a non-ASCII character in its context (the characters before
and after it); the Unicode tables behind `String.prototype.toLowerCase` are not reproduced
here, so they are a parameter. -/
abbrev UnicodeLower := JSString → Char → JSString → JSString

/-- The lower-case mapping of an ASCII character. -/
def asciiLower (c : Char) : Char :=
  if 65 ≤ c.toNat ∧ c.toNat ≤ 90 then Char.ofNat (c.toNat + 32) else c

/-- Lower-cases the input, which is preceded by `before`. -/
def toLowerCaseFrom (u : UnicodeLower) : JSString → JSString → JSString
  | _, [] => []
  | before, c :: rest =>
    (if c.toNat < 128 then [asciiLower c] else u before c rest) ++
      toLowerCaseFrom u (before ++ [c]) rest

/-- The method `String.prototype.toLowerCase`. -/
def toLowerCase (u : UnicodeLower) (s : JSString) : JSString := toLowerCaseFrom u [] s

/-- The constant `PYTHON_API_BASE`. -/
def PYTHON_API_BASE : JSString := "http://127.0.0.1:8000".toList

/-- An `axios` call to the Python backend. -/
structure BackendRequest (δ : Type) where
  method : JSString
  url : JSString
  body : Option δ

/-- The vendor client call that `generateAI` returns the result of. -/
inductive VendorCall where
  | callGemini (req : GenerationRequest) (promptText : JSString) (mediaParts : List MediaPart)
  | callClaude (req : GenerationRequest) (promptText : JSString) (mediaParts : List MediaPart)
  | callOpenAICompatible (req : GenerationRequest) (promptText : JSString)
      (mediaParts : List MediaPart)
  deriving DecidableEq, Repr

/-- Where `generateAI` sends a request: the Python backend or a vendor client. -/
inductive GenerateRoute where
  | backend (request : BackendRequest GenerationRequest)
  | vendor (call : VendorCall)

/-- The local `canSee` of `generateAI`. -/
def canSee (u : UnicodeLower) (req : GenerationRequest) : Bool :=
  let m := toLowerCase u req.model
  includes m "gpt-4".toList || includes m "claude".toList || includes m "gemini".toList ||
    includes m "vision".toList

/-- The local `fullContext` of `generateAI`. -/
def fullContext (req : GenerationRequest) (textPart : JSString) : JSString :=
  "=== CONTEXT ===\n".toList ++ req.context ++ "\n".toList ++ textPart ++
    "\n=== INSTRUCTION ===\n".toList ++ req.userPrompt

/-- The function `LevantAPI.generateAI`. -/
def LevantAPI.generateAI (u : UnicodeLower) (IS_NATIVE_APP : Bool) (req : GenerationRequest) :
    GenerateRoute :=
  if !IS_NATIVE_APP then
    .backend { method := "POST".toList, url := PYTHON_API_BASE ++ "/api/ai/generate".toList,
               body := some req }
  else
    let processed := Utils.processAttachments req.attachments (canSee u req)
    let fullContext := fullContext req processed.textPart
    let provider := toLowerCase u req.provider
    if provider = "gemini".toList then
      .vendor (.callGemini req fullContext processed.mediaParts)
    else if provider = "claude".toList then
      .vendor (.callClaude req fullContext processed.mediaParts)
    else
      .vendor (.callOpenAICompatible req fullContext processed.mediaParts)

/-- The vendor client of a route, by name. -/
def GenerateRoute.client : GenerateRoute → JSString
  | .backend _ => "backend".toList
  | .vendor (.callGemini ..) => "callGemini".toList
  | .vendor (.callClaude ..) => "callClaude".toList
  | .vendor (.callOpenAICompatible ..) => "callOpenAICompatible".toList

/-- The media list a route passes on to the vendor client. -/
def GenerateRoute.mediaParts : GenerateRoute → List MediaPart
  | .backend _ => []
  | .vendor (.callGemini _ _ m) => m
  | .vendor (.callClaude _ _ m) => m
  | .vendor (.callOpenAICompatible _ _ m) => m

/-- The composed prompt a route passes on to the vendor client. -/
def GenerateRoute.promptText : GenerateRoute → JSString
  | .backend _ => []
  | .vendor (.callGemini _ p _) => p
  | .vendor (.callClaude _ p _) => p
  | .vendor (.callOpenAICompatible _ p _) => p

/-- A request with the given provider, model and attachments, and empty prompts. -/
def scenarioRequest (provider model : JSString) (attachments : List Attachment) :
    GenerationRequest :=
  { provider := provider, model := model, apiKey := [], baseUrl := none, systemPrompt := [],
    context := [], userPrompt := [], attachments := some attachments }

/-! ## The storage adapter -/

/-- An entry `{ name, ... }` of the array `ret.files` resolved by `readdir`. -/
structure FileInfo where
  name : JSString
  deriving DecidableEq, Repr

/-- The Capacitor filesystem plugin over a filesystem state `σ`: every operation ends in a
result or a thrown error, and leaves a new state. -/
structure FilesystemPlugin (σ : Type) where
  readFile : (path directory encoding : JSString) → σ → Except Err JSString × σ
  writeFile : (path data directory encoding : JSString) → σ → Except Err Unit × σ
  deleteFile : (path directory : JSString) → σ → Except Err Unit × σ
  mkdir : (path directory : JSString) → (recursive : Bool) → σ → Except Err Unit × σ
  readdir : (path directory : JSString) → σ → Except Err (List FileInfo) × σ

/-- The constants `Directory`. -/
structure DirectoryTable where
  Documents : JSString
  Data : JSString
  Library : JSString
  Cache : JSString
  External : JSString
  ExternalStorage : JSString
  deriving DecidableEq, Repr

/-- The constants `Encoding`. -/
structure EncodingTable where
  UTF8 : JSString
  ASCII : JSString
  UTF16 : JSString
  deriving DecidableEq, Repr

/-- The object `{ Filesystem, Directory, Encoding }` resolved by `_getCapacitorFs`. -/
structure CapacitorFs (σ : Type) where
  Filesystem : FilesystemPlugin σ
  Directory : DirectoryTable
  Encoding : EncodingTable

/-- The part of the page environment that the storage adapter reads. -/
structure Env (σ : Type) where
  /-- The flag `window.IS_NATIVE_APP`. -/
  IS_NATIVE_APP : Bool
  /-- What `import('@capacitor/filesystem')` resolves to; `none` if it rejects. -/
  importedModule : Option (CapacitorFs σ)
  /-- Whether `window.Capacitor` is defined. -/
  hasCapacitor : Bool
  /-- The object `window.Capacitor.Plugins.Filesystem`, if present. -/
  bridgeFilesystem : Option (FilesystemPlugin σ)
  /-- The outcome of `window.Capacitor.getPlatform()`. -/
  getPlatform : Except Err JSString

/-- The constants written out by hand in the fallback branch of `_getCapacitorFs`. -/
def bridgeDirectory : DirectoryTable :=
  { Documents := "DOCUMENTS".toList, Data := "DATA".toList, Library := "LIBRARY".toList,
    Cache := "CACHE".toList, External := "EXTERNAL".toList,
    ExternalStorage := "EXTERNAL_STORAGE".toList }

/-- The encodings written out by hand in the fallback branch of `_getCapacitorFs`. -/
def bridgeEncoding : EncodingTable :=
  { UTF8 := "utf8".toList, ASCII := "ascii".toList, UTF16 := "utf16".toList }

/-- The function `LevantAPI._getCapacitorFs`; `ok none` is the returned `null`. -/
def LevantAPI._getCapacitorFs {σ : Type} (env : Env σ) : Except Err (Option (CapacitorFs σ)) :=
  if !env.IS_NATIVE_APP then .ok none
  else
    match env.importedModule with
    | some m => .ok (some m)
    | none =>
      match env.hasCapacitor, env.bridgeFilesystem with
      | true, some fs =>
        .ok (some { Filesystem := fs, Directory := bridgeDirectory, Encoding := bridgeEncoding })
      | _, _ =>
        .error ("Capacitor Filesystem plugin is MISSING. Please run: " ++
          "npm install @capacitor/filesystem && npx cap sync").toList

/-- The destructuring `const { ... } = await this._getCapacitorFs()`, which throws on `null`. -/
def destructureCapacitorFs {σ : Type} (env : Env σ) : Except Err (CapacitorFs σ) :=
  match LevantAPI._getCapacitorFs env with
  | .error e => .error e
  | .ok none => .error "TypeError".toList
  | .ok (some m) => .ok m

/-- The function `LevantAPI._getStorageDir`. -/
def LevantAPI._getStorageDir {σ : Type} (env : Env σ) : Except Err JSString :=
  match destructureCapacitorFs env with
  | .error e => .error e
  | .ok m =>
    if env.hasCapacitor then
      match env.getPlatform with
      | .error e => .error e
      | .ok p => .ok (if p = "android".toList then m.Directory.External else m.Directory.Documents)
    else .ok m.Directory.Documents

/-- The UTF-16 code units of a character. -/
def utf16Units (c : Char) : List Nat :=
  if c.toNat < 0x10000 then [c.toNat]
  else [0xD800 + (c.toNat - 0x10000) / 1024, 0xDC00 + (c.toNat - 0x10000) % 1024]

/-- The UTF-16 code units of a string. -/
def utf16 (s : JSString) : List Nat := s.flatMap utf16Units

/-- Lexicographic comparison of code-unit sequences. -/
def codeUnitsLe : List Nat → List Nat → Bool
  | [], _ => true
  | _ :: _, [] => false
  | a :: as, b :: bs => a < b || (a == b && codeUnitsLe as bs)

/-- The order of the default comparator of `Array.prototype.sort`: by UTF-16 code units. -/
def sortLe (a b : JSString) : Prop := codeUnitsLe (utf16 a) (utf16 b) = true

instance : DecidableRel sortLe := fun _ _ => inferInstanceAs (Decidable (_ = true))

/-- The method `Array.prototype.sort` without a comparator, on an array of strings. -/
def sort (names : List JSString) : List JSString := names.insertionSort sortLe

/-- The object `{ files }`. -/
structure FileList where
  files : List JSString
  deriving DecidableEq, Repr

/-- The object `{ status, filename }` returned by `saveGame`. -/
structure SaveAck where
  status : JSString
  filename : JSString
  deriving DecidableEq, Repr

/-- The object `{ status }` returned by `deleteSave`. -/
structure DeleteAck where
  status : JSString
  deriving DecidableEq, Repr

/-- The built-in `JSON` over the values `δ`: `stringify` is `JSON.stringify(data, null, 2)`. -/
structure JSON (δ : Type) where
  stringify : δ → Except Err JSString
  parse : JSString → Except Err δ

/-- The outcome of a facade call: forwarded to the Python backend, or settled locally. -/
inductive Reply (δ α : Type) where
  | http (request : BackendRequest δ)
  | done (result : Except Err α)

/-- The native branch of `getSaves`: the body of its outer `try`. -/
def getSavesTry {σ : Type} (env : Env σ) (st : σ) : Except Err FileList × σ :=
  match destructureCapacitorFs env with
  | .error e => (.error e, st)
  | .ok m =>
    -- the inner `try { await Filesystem.mkdir(...) } catch(e) {}`
    let st1 := (m.Filesystem.mkdir "saves".toList m.Directory.Data true st).2
    match LevantAPI._getStorageDir env with
    | .error e => (.error e, st1)
    | .ok dirSave =>
      match m.Filesystem.readdir "saves".toList dirSave st1 with
      | (.error e, st2) => (.error e, st2)
      | (.ok files, st2) =>
        (.ok { files := sort ((files.map (·.name)).filter (endsWith · ".json".toList)) }, st2)

/-- The function `LevantAPI.getSaves`. -/
def LevantAPI.getSaves {σ : Type} (env : Env σ) (st : σ) : Reply Empty FileList × σ :=
  if !env.IS_NATIVE_APP then
    (.http { method := "GET".toList, url := PYTHON_API_BASE ++ "/api/saves".toList,
             body := none }, st)
  else
    match getSavesTry env st with
    | (.ok r, st1) => (.done (.ok r), st1)
    | (.error _, st1) => (.done (.ok { files := [] }), st1)

/-- The function `LevantAPI.loadGame`. -/
def LevantAPI.loadGame {σ δ : Type} (json : JSON δ) (env : Env σ) (filename : JSString)
    (st : σ) : Reply Empty δ × σ :=
  if !env.IS_NATIVE_APP then
    (.http { method := "GET".toList,
             url := PYTHON_API_BASE ++ "/api/state?filename=".toList ++ filename,
             body := none }, st)
  else
    match destructureCapacitorFs env with
    | .error e => (.done (.error e), st)
    | .ok m =>
      match LevantAPI._getStorageDir env with
      | .error e => (.done (.error e), st)
      | .ok dir =>
        let wrap : Err → Err := fun msg =>
          "Failed to load ".toList ++ filename ++ ": ".toList ++ msg
        match m.Filesystem.readFile ("saves/".toList ++ filename) dir m.Encoding.UTF8 st with
        | (.error e, st1) => (.done (.error (wrap e)), st1)
        | (.ok data, st1) =>
          match json.parse data with
          | .error e => (.done (.error (wrap e)), st1)
          | .ok v => (.done (.ok v), st1)

/-- The function `LevantAPI.saveGame`. -/
def LevantAPI.saveGame {σ δ : Type} (json : JSON δ) (env : Env σ) (filename : JSString)
    (data : δ) (st : σ) : Reply δ SaveAck × σ :=
  if !env.IS_NATIVE_APP then
    (.http { method := "POST".toList,
             url := PYTHON_API_BASE ++ "/api/state?filename=".toList ++ filename,
             body := some data }, st)
  else
    match destructureCapacitorFs env with
    | .error e => (.done (.error e), st)
    | .ok m =>
      match LevantAPI._getStorageDir env with
      | .error e => (.done (.error e), st)
      | .ok dir =>
        let wrap : Err → Err := fun msg => "Save failed: ".toList ++ msg
        -- the inner `try { await Filesystem.mkdir(...) } catch (e) {}`
        let st1 := (m.Filesystem.mkdir "saves".toList dir true st).2
        match json.stringify data with
        | .error e => (.done (.error (wrap e)), st1)
        | .ok text =>
          match m.Filesystem.writeFile ("saves/".toList ++ filename) text dir m.Encoding.UTF8
              st1 with
          | (.error e, st2) => (.done (.error (wrap e)), st2)
          | (.ok _, st2) => (.done (.ok { status := "saved".toList, filename := filename }), st2)

/-- The function `LevantAPI.deleteSave`. -/
def LevantAPI.deleteSave {σ : Type} (env : Env σ) (filename : JSString) (st : σ) :
    Reply Empty DeleteAck × σ :=
  if !env.IS_NATIVE_APP then
    (.http { method := "DELETE".toList,
             url := PYTHON_API_BASE ++ "/api/saves/".toList ++ filename,
             body := none }, st)
  else
    match destructureCapacitorFs env with
    | .error e => (.done (.error e), st)
    | .ok m =>
      match LevantAPI._getStorageDir env with
      | .error e => (.done (.error e), st)
      | .ok dir =>
        match m.Filesystem.deleteFile ("saves/".toList ++ filename) dir st with
        | (.error e, st1) => (.done (.error e), st1)
        | (.ok _, st1) => (.done (.ok { status := "deleted".toList }), st1)

/-! ## A filesystem that is a finite map from (directory, path) to text -/

/-- A filesystem as a finite map: the entries `((directory, path), text)`, keys distinct. -/
abbrev MapFs := List ((JSString × JSString) × JSString)

/-- The name of the file at `p`, if `p` is `path/name` with no further separator. -/
def childName (path p : JSString) : Option JSString :=
  if startsWith p (path ++ "/".toList) then
    let name := p.drop (path.length + 1)
    if name.isEmpty || name.contains '/' then none else some name
  else none

/-- The plugin over a map filesystem. A map has no directory objects: `mkdir` changes
nothing, and `readdir` lists the files directly under the path. -/
def mapPlugin : FilesystemPlugin MapFs where
  readFile := fun path directory _ fs =>
    match fs.lookup (directory, path) with
    | some text => (.ok text, fs)
    | none => (.error "File does not exist.".toList, fs)
  writeFile := fun path data directory _ fs =>
    (.ok (), ((directory, path), data) :: fs.filter (fun e => e.1 != (directory, path)))
  deleteFile := fun path directory fs =>
    match fs.lookup (directory, path) with
    | some _ => (.ok (), fs.filter (fun e => e.1 != (directory, path)))
    | none => (.error "File does not exist.".toList, fs)
  mkdir := fun _ _ _ fs => (.ok (), fs)
  readdir := fun path directory fs =>
    (.ok ((fs.filterMap (fun e =>
      if e.1.1 = directory then childName path e.1.2 else none)).map FileInfo.mk), fs)

/-- A page environment whose plugin, imported or reached through the global bridge, is the
map filesystem. -/
def mapEnv (IS_NATIVE_APP importResolves hasCapacitor hasBridge : Bool)
    (getPlatform : Except Err JSString) : Env MapFs where
  IS_NATIVE_APP := IS_NATIVE_APP
  importedModule :=
    if importResolves then
      some { Filesystem := mapPlugin, Directory := bridgeDirectory, Encoding := bridgeEncoding }
    else none
  hasCapacitor := hasCapacitor
  bridgeFilesystem := if hasBridge then some mapPlugin else none
  getPlatform := getPlatform

/-- The built-in `JSON` restricted to the values `true` and `false`. -/
def booleanJSON : JSON Bool where
  stringify := fun b => .ok (if b then "true".toList else "false".toList)
  parse := fun text =>
    if text = "true".toList then .ok true
    else if text = "false".toList then .ok false
    else .error "SyntaxError".toList

/-- A plugin over a directory listing in which the directory already exists: `mkdir` throws,
`readdir` resolves with the listing, and there are no files to read, write or delete. -/
def existingDirectoryPlugin : FilesystemPlugin (List FileInfo) where
  readFile := fun _ _ _ st => (.error "File does not exist.".toList, st)
  writeFile := fun _ _ _ _ st => (.error "Unable to write.".toList, st)
  deleteFile := fun _ _ st => (.error "File does not exist.".toList, st)
  mkdir := fun _ _ _ st => (.error "Directory exists".toList, st)
  readdir := fun _ _ st => (.ok st, st)

/-- A native page whose imported plugin is `existingDirectoryPlugin`. -/
def existingDirectoryEnv : Env (List FileInfo) where
  IS_NATIVE_APP := true
  importedModule := some { Filesystem := existingDirectoryPlugin, Directory := bridgeDirectory,
                           Encoding := bridgeEncoding }
  hasCapacitor := true
  bridgeFilesystem := none
  getPlatform := .ok "android".toList

/-! ## Standard encoders (the reference for `Utils.b64DecodeUnicode`) -/

/-- The UTF-8 encoding of a Unicode scalar value (Unicode standard, table 3-6). -/
def utf8Bytes (c : Char) : List Nat :=
  let v := c.toNat
  if v < 0x80 then [v]
  else if v < 0x800 then [0xC0 + v / 64, 0x80 + v % 64]
  else if v < 0x10000 then [0xE0 + v / 4096, 0x80 + (v / 64) % 64, 0x80 + v % 64]
  else [0xF0 + v / 262144, 0x80 + (v / 4096) % 64, 0x80 + (v / 64) % 64, 0x80 + v % 64]

/-- The UTF-8 bytes of a string. -/
def utf8Encode (s : JSString) : List Nat := s.flatMap utf8Bytes

/-- The base64 character of a 6-bit value. -/
def base64Char (v : Nat) : Char := base64Alphabet.getD v 'A'

/-- The 6-bit values of a byte sequence: three bytes give four values, a final byte gives
two, two final bytes give three (the missing bits are zero). -/
def encodeSextets : List Nat → List Nat
  | [] => []
  | [a] => [a / 4, (a % 4) * 16]
  | [a, b] => [a / 4, (a % 4) * 16 + b / 16, (b % 16) * 4]
  | a :: b :: c :: rest =>
    (a / 4) :: ((a % 4) * 16 + b / 16) :: ((b % 16) * 4 + c / 64) :: (c % 64) ::
      encodeSextets rest

/-- The padding of the standard base64 encoding of a byte sequence. -/
def base64Padding (bytes : List Nat) : JSString :=
  if bytes.length % 3 = 1 then ['=', '='] else if bytes.length % 3 = 2 then ['='] else []

/-- The standard base64 encoding with padding (RFC 4648, section 4). -/
def base64Encode (bytes : List Nat) : JSString :=
  (encodeSextets bytes).map base64Char ++ base64Padding bytes

/-! ## `NativeAI.callGemini` -/

/-- The outcome of `ToBoolean` on the number a literal denotes; the evaluation of number
literals is not reproduced here, so it is a parameter. -/
abbrev NumberToBoolean := JSString → Bool

/-- The truthiness of a value (`!v` is its negation). -/
def JSValue.truthy (nt : NumberToBoolean) : JSValue → Bool
  | .undefined => false
  | .null => false
  | .bool b => b
  | .num literal => nt literal
  | .str s => !s.isEmpty
  | .arr _ => true
  | .obj _ => true

/-- The test `v.length === 0`. A number parsed from JSON is `0` exactly when it is falsy. -/
def JSValue.lengthIsZero (nt : NumberToBoolean) (v : JSValue) : Except Err Bool :=
  match v with
  | .undefined => .error "TypeError".toList
  | .null => .error "TypeError".toList
  | .arr items => .ok items.isEmpty
  | .str s => .ok s.isEmpty
  | .obj fields =>
    match fields.lookup "length".toList with
    | some (.num literal) => .ok (!nt literal)
    | _ => .ok false
  | _ => .ok false

/-- A part of the `parts` array sent to Gemini. -/
inductive GeminiPart where
  | text (text : JSString)
  | inline_data (mime_type data : JSString)
  deriving DecidableEq, Repr

/-- The arguments of the `fetch` call of `callGemini`; the body is
`{ contents: [{ parts }] }`. -/
structure GeminiFetch where
  url : JSString
  method : JSString
  headers : List (JSString × JSString)
  parts : List GeminiPart
  deriving DecidableEq, Repr

/-- The body of the `try` block of `callGemini`. -/
def geminiExtract (nt : NumberToBoolean) (json : JSValue) : Except Err JSValue := do
  let candidates ← json.prop "candidates".toList
  let noCandidates ←
    if !candidates.truthy nt then pure true else candidates.lengthIsZero nt
  if noCandidates then
    throw "Gemini returned no candidates (Possible safety block).".toList
  let first ← candidates.index 0
  let content ← first.prop "content".toList
  -- the optional chaining `content?.parts`
  let parts ←
    match content with
    | .undefined => pure JSValue.undefined
    | .null => pure JSValue.undefined
    | c => c.prop "parts".toList
  let noParts ← if !parts.truthy nt then pure true else parts.lengthIsZero nt
  if noParts then
    throw "Gemini returned empty content.".toList
  let part ← parts.index 0
  let text ← part.prop "text".toList
  pure (.obj [("result".toList, text)])

/-- The function `NativeAI.callGemini`. -/
def NativeAI.callGemini (nt : NumberToBoolean) (req : GenerationRequest)
    (promptText : JSString) (mediaParts : List MediaPart) : FetchCall GeminiFetch JSValue where
  request :=
    { url := "https://generativelanguage.googleapis.com/v1beta/models/".toList ++
        (if req.model.isEmpty then "gemini-2.5-flash".toList else req.model) ++
        ":generateContent?key=".toList ++ req.apiKey
      method := "POST".toList
      headers := [("Content-Type".toList, "application/json".toList)]
      parts := [GeminiPart.text (req.systemPrompt ++ "\n\n".toList ++ promptText)] ++
        mediaParts.map (fun m => GeminiPart.inline_data m.mime_type m.data) }
  onResponse := fun response =>
    if !response.ok then
      .error ("Gemini Error ".toList ++ Nat.toDigits 10 response.status ++ ": ".toList ++
        response.text)
    else
      match response.json with
      | .error e => .error e
      | .ok json =>
        match geminiExtract nt json with
        | .ok r => .ok r
        | .error e => .error ("Gemini response parsing failed: ".toList ++ e)

/-! ## `LevantAPI.getMusicList` and the calls made to the plugin -/

/-- The test `f.name && f.name.match(/\.(mp3|wav|ogg|flac)$/i)`: without the `u` flag only
ASCII letters match the letters of the pattern. -/
def isAudioName (name : JSString) : Bool :=
  !name.isEmpty &&
    (endsWith (name.map asciiLower) ".mp3".toList ||
      endsWith (name.map asciiLower) ".wav".toList ||
      endsWith (name.map asciiLower) ".ogg".toList ||
      endsWith (name.map asciiLower) ".flac".toList)

/-- The native branch of `getMusicList`: the body of its outer `try`. -/
def getMusicListTry {σ : Type} (env : Env σ) (st : σ) : Except Err FileList × σ :=
  match destructureCapacitorFs env with
  | .error e => (.error e, st)
  | .ok m =>
    -- the inner `try { await Filesystem.mkdir(...) } catch (e) {}`
    let st1 := (m.Filesystem.mkdir "sounds".toList m.Directory.Data true st).2
    match LevantAPI._getStorageDir env with
    | .error e => (.error e, st1)
    | .ok dir =>
      match m.Filesystem.readdir "sounds".toList dir st1 with
      | (.error e, st2) => (.error e, st2)
      | (.ok files, st2) =>
        (.ok { files := (files.filter (fun f => isAudioName f.name)).map (·.name) }, st2)

/-- The function `LevantAPI.getMusicList`; `now` is the value of `Date.now()`. -/
def LevantAPI.getMusicList {σ : Type} (now : Nat) (env : Env σ) (st : σ) :
    Reply Empty FileList × σ :=
  if !env.IS_NATIVE_APP then
    (.http { method := "GET".toList,
             url := PYTHON_API_BASE ++ "/api/music-list?t=".toList ++ Nat.toDigits 10 now,
             body := none }, st)
  else
    match getMusicListTry env st with
    | (.ok r, st1) => (.done (.ok r), st1)
    | (.error _, st1) => (.done (.ok { files := [] }), st1)

/-- A call received by the filesystem plugin, with its arguments. -/
inductive FsCall where
  | readFile (path directory encoding : JSString)
  | writeFile (path data directory encoding : JSString)
  | deleteFile (path directory : JSString)
  | mkdir (path directory : JSString) (recursive : Bool)
  | readdir (path directory : JSString)
  deriving DecidableEq, Repr

/-- A plugin whose state is the log of the calls it has received, oldest first. There are
no files: reading and deleting fail, the other calls resolve. -/
def recordingPlugin : FilesystemPlugin (List FsCall) where
  readFile := fun path directory encoding log =>
    (.error "File does not exist.".toList, log ++ [.readFile path directory encoding])
  writeFile := fun path data directory encoding log =>
    (.ok (), log ++ [.writeFile path data directory encoding])
  deleteFile := fun path directory log =>
    (.error "File does not exist.".toList, log ++ [.deleteFile path directory])
  mkdir := fun path directory recursive log => (.ok (), log ++ [.mkdir path directory recursive])
  readdir := fun path directory log => (.ok [], log ++ [.readdir path directory])

/-- A native page on the given platform whose imported plugin is `recordingPlugin`. -/
def recordingEnv (platform : JSString) : Env (List FsCall) where
  IS_NATIVE_APP := true
  importedModule := some { Filesystem := recordingPlugin, Directory := bridgeDirectory,
                           Encoding := bridgeEncoding }
  hasCapacitor := true
  bridgeFilesystem := none
  getPlatform := .ok platform

/-! ## Lemmas on strings -/

theorem startsWith_iff (s p : JSString) : startsWith s p = true ↔ p <+: s := by
  unfold startsWith
  exact List.isPrefixOf_iff_prefix

theorem endsWith_iff (s p : JSString) : endsWith s p = true ↔ p <:+ s := by
  unfold endsWith
  exact List.isSuffixOf_iff_suffix

theorem includes_iff (s p : JSString) : includes s p = true ↔ p <:+: s := by
  induction s with
  | nil =>
    rw [includes, List.isPrefixOf_iff_prefix]
    simp
  | cons c s ih =>
    rw [includes, Bool.or_eq_true, ih, List.isPrefixOf_iff_prefix, List.infix_cons_iff]

theorem includes_of_infix_of_includes (s t p : JSString) (hp : includes t p = true)
    (ht : t <:+: s) : includes s p = true := by
  rw [includes_iff] at hp ⊢
  exact hp.trans ht

/-! ## `Utils.processAttachments` -/

/-- The callback only appends to the two accumulators. -/
theorem processOne_append (allowImage : Bool) (acc : Processed) (att : Attachment) :
    processOne allowImage acc att =
      { textPart := acc.textPart ++ (processOne allowImage ⟨[], []⟩ att).textPart
        mediaParts := acc.mediaParts ++ (processOne allowImage ⟨[], []⟩ att).mediaParts } := by
  unfold processOne
  split
  · split <;> simp
  · split <;> simp

theorem foldl_processOne (allowImage : Bool) (atts : List Attachment) (acc : Processed) :
    atts.foldl (processOne allowImage) acc =
      { textPart := acc.textPart ++
          (atts.map (fun att => (processOne allowImage ⟨[], []⟩ att).textPart)).flatten
        mediaParts := acc.mediaParts ++
          (atts.map (fun att => (processOne allowImage ⟨[], []⟩ att).mediaParts)).flatten } := by
  induction atts generalizing acc with
  | nil => simp
  | cons att rest ih =>
    rw [List.foldl_cons, ih, processOne_append allowImage acc att]
    simp [List.append_assoc]

theorem processAttachments_textPart (allowImage : Bool) (atts : List Attachment) :
    (Utils.processAttachments (some atts) allowImage).textPart =
      (atts.map (fun att => (processOne allowImage ⟨[], []⟩ att).textPart)).flatten := by
  simp [Utils.processAttachments, foldl_processOne]

theorem processAttachments_mediaParts (allowImage : Bool) (atts : List Attachment) :
    (Utils.processAttachments (some atts) allowImage).mediaParts =
      (atts.map (fun att => (processOne allowImage ⟨[], []⟩ att).mediaParts)).flatten := by
  simp [Utils.processAttachments, foldl_processOne]

theorem processOne_textFile (allowImage : Bool) (att : Attachment)
    (himg : startsWith att.type "image/".toList = false) (htxt : isTextFile att = true) :
    (processOne allowImage ⟨[], []⟩ att).textPart =
      fileSection att.name (Utils.b64DecodeUnicode (cleanData att.data)) := by
  unfold processOne
  rw [himg, htxt]
  rfl

theorem processOne_image_media (allowImage : Bool) (att : Attachment)
    (himg : startsWith att.type "image/".toList = true) :
    (processOne allowImage ⟨[], []⟩ att).mediaParts =
      if allowImage then [{ mime_type := att.type, data := cleanData att.data }] else [] := by
  unfold processOne
  rw [himg]
  cases allowImage <;> rfl

theorem processOne_other_media (allowImage : Bool) (att : Attachment)
    (himg : startsWith att.type "image/".toList = false) :
    (processOne allowImage ⟨[], []⟩ att).mediaParts = [] := by
  unfold processOne
  rw [himg]
  cases isTextFile att <;> rfl

theorem processOne_media_false (att : Attachment) :
    (processOne false ⟨[], []⟩ att).mediaParts = [] := by
  unfold processOne
  split
  · simp
  · split <;> simp

theorem processOne_image_text_false (att : Attachment)
    (himg : startsWith att.type "image/".toList = true) :
    (processOne false ⟨[], []⟩ att).textPart = imageIgnoredNotice att.name := by
  unfold processOne
  rw [himg]
  rfl

theorem processAttachments_mediaParts_false (atts : List Attachment) :
    (Utils.processAttachments (some atts) false).mediaParts = [] := by
  rw [processAttachments_mediaParts]
  induction atts with
  | nil => rfl
  | cons att rest ih => simp [processOne_media_false, ih]

/-- The media list holds the image attachments, in input order, when images are allowed. -/
theorem processAttachments_mediaParts_true (atts : List Attachment) :
    (Utils.processAttachments (some atts) true).mediaParts =
      (atts.filter (fun att => startsWith att.type "image/".toList)).map
        (fun att => { mime_type := att.type, data := cleanData att.data }) := by
  rw [processAttachments_mediaParts]
  induction atts with
  | nil => rfl
  | cons att rest ih =>
    rw [List.map_cons, List.flatten_cons, ih, List.filter_cons]
    cases himg : startsWith att.type "image/".toList
    · rw [processOne_other_media true att himg]
      rfl
    · rw [processOne_image_media true att himg]
      rfl

/-- Claim C2: an image attachment gets an entry in `mediaParts` if and only if `allowImage`
is true; when `allowImage` is false, `mediaParts` is empty and the returned text contains
the notice carrying the name of the attachment. -/
theorem processAttachments_image (atts : List Attachment) (allowImage : Bool)
    (att : Attachment) (hmem : att ∈ atts)
    (himg : startsWith att.type "image/".toList = true) :
    (({ mime_type := att.type, data := cleanData att.data } : MediaPart) ∈
        (Utils.processAttachments (some atts) allowImage).mediaParts ↔ allowImage = true) ∧
      (allowImage = false →
        (Utils.processAttachments (some atts) allowImage).mediaParts = [] ∧
        includes (Utils.processAttachments (some atts) allowImage).textPart
          ("\n[System: User uploaded image '".toList ++ att.name ++
            "', but current model does not support vision. Image ignored.]\n".toList) = true) := by
  cases allowImage with
  | true =>
    refine ⟨⟨fun _ => rfl, fun _ => ?_⟩, fun h => by cases h⟩
    rw [processAttachments_mediaParts_true, List.mem_map]
    exact ⟨att, List.mem_filter.mpr ⟨hmem, himg⟩, rfl⟩
  | false =>
    refine ⟨⟨fun h => ?_, fun h => by cases h⟩, fun _ => ⟨?_, ?_⟩⟩
    · rw [processAttachments_mediaParts_false] at h
      cases h
    · exact processAttachments_mediaParts_false atts
    · rw [includes_iff, processAttachments_textPart]
      apply List.infix_of_mem_flatten
      rw [List.mem_map]
      exact ⟨att, hmem, processOne_image_text_false att himg⟩

/-- Witness of C2: an image `a.png` followed by a text file, images not allowed. -/
theorem processAttachments_image_witness :
    (({ mime_type := "image/png".toList, data := cleanData "data:image/png;base64,AAAA".toList }
          : MediaPart) ∈
        (Utils.processAttachments (some [⟨"a.png".toList, "image/png".toList,
          "data:image/png;base64,AAAA".toList⟩, ⟨"n.txt".toList, "text/plain".toList,
          "aGk=".toList⟩]) false).mediaParts ↔ false = true) ∧
      (false = false →
        (Utils.processAttachments (some [⟨"a.png".toList, "image/png".toList,
          "data:image/png;base64,AAAA".toList⟩, ⟨"n.txt".toList, "text/plain".toList,
          "aGk=".toList⟩]) false).mediaParts = [] ∧
        includes (Utils.processAttachments (some [⟨"a.png".toList, "image/png".toList,
          "data:image/png;base64,AAAA".toList⟩, ⟨"n.txt".toList, "text/plain".toList,
          "aGk=".toList⟩]) false).textPart
          ("\n[System: User uploaded image '".toList ++ "a.png".toList ++
            "', but current model does not support vision. Image ignored.]\n".toList) = true) :=
  processAttachments_image
    [⟨"a.png".toList, "image/png".toList, "data:image/png;base64,AAAA".toList⟩,
      ⟨"n.txt".toList, "text/plain".toList, "aGk=".toList⟩] false
    ⟨"a.png".toList, "image/png".toList, "data:image/png;base64,AAAA".toList⟩
    (by simp) (by decide)

theorem matchLazyMarker_marker (mid rest : JSString)
    (h : ∀ c ∈ mid, c ≠ ';' ∧ isLineTerminator c = false) :
    matchLazyMarker (mid ++ (";base64,".toList ++ rest)) = some rest := by
  induction mid with
  | nil =>
    show matchLazyMarker (';' :: ("base64,".toList ++ rest)) = some rest
    rw [matchLazyMarker, if_pos]
    · rfl
    · rw [startsWith_iff]
      exact List.prefix_append ";base64,".toList rest
  | cons c mid ih =>
    have hc := h c (List.mem_cons_self _ _)
    rw [List.cons_append, matchLazyMarker, if_neg, hc.2, ih (fun d hd => h d (List.mem_cons_of_mem _ hd))]
    · rfl
    · have : (';' == c) = false := by
        rw [beq_eq_false_iff_ne]
        exact fun e => hc.1 e.symm
      show ¬ (List.isPrefixOf (';' :: "base64,".toList) (c :: (mid ++ (";base64,".toList ++ rest))) = true)
      rw [List.isPrefixOf, this]
      simp

/-- A payload that starts with a data-URI marker loses exactly that marker. -/
theorem cleanData_marker (mid rest : JSString)
    (h : ∀ c ∈ mid, c ≠ ';' ∧ isLineTerminator c = false) :
    cleanData ("data:".toList ++ (mid ++ (";base64,".toList ++ rest))) = rest := by
  unfold cleanData
  rw [if_pos]
  · show (match matchLazyMarker (mid ++ (";base64,".toList ++ rest)) with
      | some r => r
      | none => _) = rest
    rw [matchLazyMarker_marker mid rest h]
  · rw [startsWith_iff]
    exact List.prefix_append _ _

/-- A payload that does not start with `data:` is left as it is. -/
theorem cleanData_plain (data : JSString) (h : startsWith data "data:".toList = false) :
    cleanData data = data := by
  unfold cleanData
  rw [h]
  rfl

/-! ## `LevantAPI.generateAI` -/

theorem generateAI_native (u : UnicodeLower) (req : GenerationRequest) :
    (LevantAPI.generateAI u true req).mediaParts =
        (Utils.processAttachments req.attachments (canSee u req)).mediaParts ∧
      (LevantAPI.generateAI u true req).promptText =
        fullContext req (Utils.processAttachments req.attachments (canSee u req)).textPart := by
  unfold LevantAPI.generateAI
  simp only [Bool.not_true, Bool.false_eq_true, if_false]
  split
  · exact ⟨rfl, rfl⟩
  · split <;> exact ⟨rfl, rfl⟩

/-- On ASCII input, lower-casing does not depend on the Unicode tables. -/
theorem toLowerCaseFrom_ascii (u : UnicodeLower) (before s : JSString)
    (h : ∀ c ∈ s, c.toNat < 128) : toLowerCaseFrom u before s = s.map asciiLower := by
  induction s generalizing before with
  | nil => rfl
  | cons c rest ih =>
    have hc : c.toNat < 128 := h c (List.mem_cons_self _ _)
    rw [toLowerCaseFrom, if_pos hc, ih _ (fun d hd => h d (List.mem_cons_of_mem _ hd))]
    rfl

/-- Claim C3: in native-app mode `generateAI` calls exactly one vendor client, chosen by the
lower-cased provider string alone: `callGemini` for `gemini`, `callClaude` for `claude`,
`callOpenAICompatible` for every other provider; two requests with the same provider go to
the same client whatever their model, attachments and prompts. -/
theorem generateAI_dispatch (u : UnicodeLower) (req : GenerationRequest) :
    (toLowerCase u req.provider = "gemini".toList →
        ∃ promptText mediaParts,
          LevantAPI.generateAI u true req = .vendor (.callGemini req promptText mediaParts)) ∧
      (toLowerCase u req.provider = "claude".toList →
        ∃ promptText mediaParts,
          LevantAPI.generateAI u true req = .vendor (.callClaude req promptText mediaParts)) ∧
      (toLowerCase u req.provider ≠ "gemini".toList →
        toLowerCase u req.provider ≠ "claude".toList →
        ∃ promptText mediaParts,
          LevantAPI.generateAI u true req =
            .vendor (.callOpenAICompatible req promptText mediaParts)) ∧
      (∀ other : GenerationRequest, other.provider = req.provider →
        (LevantAPI.generateAI u true other).client = (LevantAPI.generateAI u true req).client) ∧
      (∀ v : UnicodeLower, toLowerCase v "GeMiNi".toList = "gemini".toList ∧
        toLowerCase v "CLAUDE".toList = "claude".toList) := by
  refine ⟨fun h => ?_, fun h => ?_, fun h1 h2 => ?_, fun other ho => ?_, fun v => ⟨rfl, rfl⟩⟩
  · unfold LevantAPI.generateAI
    simp only [Bool.not_true, Bool.false_eq_true, if_false]
    rw [if_pos h]
    exact ⟨_, _, rfl⟩
  · have hne : toLowerCase u req.provider ≠ "gemini".toList := by
      rw [h]
      decide
    unfold LevantAPI.generateAI
    simp only [Bool.not_true, Bool.false_eq_true, if_false]
    rw [if_neg hne, if_pos h]
    exact ⟨_, _, rfl⟩
  · unfold LevantAPI.generateAI
    simp only [Bool.not_true, Bool.false_eq_true, if_false]
    rw [if_neg h1, if_neg h2]
    exact ⟨_, _, rfl⟩
  · unfold LevantAPI.generateAI
    simp only [Bool.not_true, Bool.false_eq_true, if_false]
    rw [ho]
    by_cases h1 : toLowerCase u req.provider = "gemini".toList
    · rw [if_pos h1, if_pos h1]
      rfl
    · rw [if_neg h1, if_neg h1]
      by_cases h2 : toLowerCase u req.provider = "claude".toList
      · rw [if_pos h2, if_pos h2]
        rfl
      · rw [if_neg h2, if_neg h2]
        rfl

/-- The lazy match stops at the first `;base64,` that no line terminator precedes. -/
theorem matchLazyMarker_first (mid rest : JSString)
    (hlt : ∀ c ∈ mid, isLineTerminator c = false)
    (hfirst : ∀ k, k < mid.length →
      startsWith ((mid ++ (";base64,".toList ++ rest)).drop k) ";base64,".toList = false) :
    matchLazyMarker (mid ++ (";base64,".toList ++ rest)) = some rest := by
  induction mid with
  | nil =>
    show matchLazyMarker (';' :: ("base64,".toList ++ rest)) = some rest
    rw [matchLazyMarker, if_pos]
    · rfl
    · rw [startsWith_iff]
      exact List.prefix_append ";base64,".toList rest
  | cons c mid ih =>
    have h0 := hfirst 0 (by simp)
    rw [List.drop_zero] at h0
    rw [List.cons_append] at h0 ⊢
    rw [matchLazyMarker, h0, hlt c (List.mem_cons_self _ _)]
    simp only [Bool.false_eq_true, if_false]
    apply ih (fun d hd => hlt d (List.mem_cons_of_mem _ hd))
    intro k hk
    have := hfirst (k + 1) (by simp only [List.length_cons]; omega)
    rw [List.cons_append, List.drop_succ_cons] at this
    exact this

/-- A successful lazy match splits the input at the first `;base64,`, before which there is
no line terminator. -/
theorem matchLazyMarker_some (s rest : JSString) (h : matchLazyMarker s = some rest) :
    ∃ mid, s = mid ++ (";base64,".toList ++ rest) ∧
      (∀ c ∈ mid, isLineTerminator c = false) ∧
      ∀ k, k < mid.length →
        startsWith ((mid ++ (";base64,".toList ++ rest)).drop k) ";base64,".toList = false := by
  induction s with
  | nil =>
    rw [matchLazyMarker] at h
    cases h
  | cons c s ih =>
    rw [matchLazyMarker] at h
    by_cases hs : startsWith (c :: s) ";base64,".toList = true
    · rw [if_pos hs] at h
      cases h
      refine ⟨[], ?_, ?_, ?_⟩
      · rw [startsWith_iff] at hs
        obtain ⟨t, ht⟩ := hs
        rw [← ht, List.nil_append]
        rfl
      · intro d hd
        cases hd
      · intro k hk
        exact absurd hk (Nat.not_lt_zero k)
    · rw [if_neg hs] at h
      cases hl : isLineTerminator c
      · rw [hl] at h
        simp only [Bool.false_eq_true, if_false] at h
        obtain ⟨mid, hmid, hlt, hfirst⟩ := ih h
        refine ⟨c :: mid, by rw [hmid]; rfl, ?_, ?_⟩
        · intro d hd
          rcases List.mem_cons.mp hd with hd | hd
          · rw [hd]
            exact hl
          · exact hlt d hd
        · intro k hk
          cases k with
          | zero =>
            rw [List.drop_zero, List.cons_append, ← hmid]
            exact Bool.eq_false_iff.mpr hs
          | succ k =>
            rw [List.cons_append, List.drop_succ_cons]
            exact hfirst k (by simp only [List.length_cons] at hk; omega)
      · rw [hl] at h
        simp only [if_true] at h
        cases h

/-- A payload that starts with `data:`, goes on without a line terminator to a first
`;base64,`, loses exactly that prefix. -/
theorem cleanData_first (mid payload : JSString)
    (hlt : ∀ c ∈ mid, isLineTerminator c = false)
    (hfirst : ∀ k, k < mid.length →
      startsWith ((mid ++ (";base64,".toList ++ payload)).drop k) ";base64,".toList = false) :
    cleanData ("data:".toList ++ (mid ++ (";base64,".toList ++ payload))) = payload := by
  unfold cleanData
  rw [if_pos]
  · show (match matchLazyMarker (mid ++ (";base64,".toList ++ payload)) with
      | some r => r
      | none => _) = payload
    rw [matchLazyMarker_first mid payload hlt hfirst]
  · rw [startsWith_iff]
    exact List.prefix_append _ _

/-- Every payload is either left as it is or is split as in `cleanData_first`. -/
theorem cleanData_cases (data : JSString) :
    cleanData data = data ∨
      ∃ mid payload, data = "data:".toList ++ (mid ++ (";base64,".toList ++ payload)) ∧
        (∀ c ∈ mid, isLineTerminator c = false) ∧
        (∀ k, k < mid.length →
          startsWith ((mid ++ (";base64,".toList ++ payload)).drop k) ";base64,".toList =
            false) ∧
        cleanData data = payload := by
  by_cases hs : startsWith data "data:".toList = true
  · cases hm : matchLazyMarker (data.drop 5) with
    | none =>
      left
      unfold cleanData
      rw [if_pos hs, hm]
    | some rest =>
      right
      obtain ⟨mid, hmid, hlt, hfirst⟩ := matchLazyMarker_some _ _ hm
      have hdata : data = "data:".toList ++ (mid ++ (";base64,".toList ++ rest)) := by
        rw [startsWith_iff] at hs
        obtain ⟨t, ht⟩ := hs
        have : data.drop 5 = t := by
          rw [← ht]
          rfl
        rw [← hmid, this, ht]
      refine ⟨mid, rest, hdata, hlt, hfirst, ?_⟩
      unfold cleanData
      rw [if_pos hs, hm]
  · left
    exact cleanData_plain data (Bool.eq_false_iff.mpr hs)

/-- Claim C7: for a model whose lower-cased name contains `gpt-4`, `claude`, `gemini` or
`vision`, the media list passed to the vendor client has one entry per image attachment, in
input order, with the type of the attachment and its payload without the leading data-URI
marker: a payload `data:<mid>;base64,<payload>`, where `<mid>` has no line terminator and
`;base64,` does not occur before the end of the marker, becomes `<payload>`, and every
other payload is left as it is; for `claude-3-5-sonnet` and the single attachment `a.png`
the media list is `[{image/png, AAAA}]`. -/
theorem generateAI_media_vision (u : UnicodeLower) (req : GenerationRequest)
    (atts : List Attachment) (hatts : req.attachments = some atts)
    (hsee : includes (toLowerCase u req.model) "gpt-4".toList = true ∨
      includes (toLowerCase u req.model) "claude".toList = true ∨
      includes (toLowerCase u req.model) "gemini".toList = true ∨
      includes (toLowerCase u req.model) "vision".toList = true) :
    (LevantAPI.generateAI u true req).mediaParts =
        (atts.filter (fun att => startsWith att.type "image/".toList)).map
          (fun att => { mime_type := att.type, data := cleanData att.data }) ∧
      (∀ mid payload : JSString, (∀ c ∈ mid, c ≠ ';' ∧ isLineTerminator c = false) →
        cleanData ("data:".toList ++ (mid ++ (";base64,".toList ++ payload))) = payload) ∧
      (∀ data : JSString, startsWith data "data:".toList = false → cleanData data = data) ∧
      (∀ r : GenerationRequest, r.model = "claude-3-5-sonnet".toList →
        r.attachments = some [⟨"a.png".toList, "image/png".toList,
          "data:image/png;base64,AAAA".toList⟩] →
        (LevantAPI.generateAI u true r).mediaParts =
          [{ mime_type := "image/png".toList, data := "AAAA".toList }]) ∧
      (∀ mid payload : JSString, (∀ c ∈ mid, isLineTerminator c = false) →
        (∀ k, k < mid.length →
          startsWith ((mid ++ (";base64,".toList ++ payload)).drop k) ";base64,".toList =
            false) →
        cleanData ("data:".toList ++ (mid ++ (";base64,".toList ++ payload))) = payload) ∧
      (∀ data : JSString, cleanData data = data ∨
        ∃ mid payload, data = "data:".toList ++ (mid ++ (";base64,".toList ++ payload)) ∧
          (∀ c ∈ mid, isLineTerminator c = false) ∧
          (∀ k, k < mid.length →
            startsWith ((mid ++ (";base64,".toList ++ payload)).drop k) ";base64,".toList =
              false) ∧
          cleanData data = payload) ∧
      (∀ r : GenerationRequest, r.model = "claude-3-5-sonnet".toList →
        r.attachments = some [⟨"a.svg".toList, "image/svg+xml".toList,
          "data:image/svg+xml;charset=utf-8;base64,AAAA".toList⟩] →
        (LevantAPI.generateAI u true r).mediaParts =
          [{ mime_type := "image/svg+xml".toList, data := "AAAA".toList }]) := by
  have hcan : canSee u req = true := by
    unfold canSee
    simp only [Bool.or_eq_true]
    tauto
  have hclaude : ∀ r : GenerationRequest, r.model = "claude-3-5-sonnet".toList →
      canSee u r = true := by
    intro r hm
    unfold canSee
    rw [hm]
    rfl
  refine ⟨?_, cleanData_marker, cleanData_plain, fun r hm ha => ?_, cleanData_first,
    cleanData_cases, fun r hm ha => ?_⟩
  · rw [(generateAI_native u req).1, hatts, hcan, processAttachments_mediaParts_true]
  · rw [(generateAI_native u r).1, ha, hclaude r hm]
    rfl
  · rw [(generateAI_native u r).1, ha, hclaude r hm]
    rfl

/-- Witness of C7: the request of the scenario, model `claude-3-5-sonnet`. -/
theorem generateAI_media_vision_witness :
    (LevantAPI.generateAI (fun _ c _ => [c]) true
        (scenarioRequest "claude".toList "claude-3-5-sonnet".toList
          [⟨"a.png".toList, "image/png".toList,
            "data:image/png;base64,AAAA".toList⟩])).mediaParts =
      [{ mime_type := "image/png".toList, data := "AAAA".toList }] :=
  (generateAI_media_vision (fun _ c _ => [c])
    (scenarioRequest "claude".toList "claude-3-5-sonnet".toList
      [⟨"a.png".toList, "image/png".toList, "data:image/png;base64,AAAA".toList⟩])
    [⟨"a.png".toList, "image/png".toList, "data:image/png;base64,AAAA".toList⟩]
    rfl (Or.inr (Or.inl rfl))).1

theorem includes_fullContext (req : GenerationRequest) (textPart p : JSString)
    (h : includes textPart p = true) : includes (fullContext req textPart) p = true := by
  apply includes_of_infix_of_includes _ textPart p h
  unfold fullContext
  exact ⟨"=== CONTEXT ===\n".toList ++ req.context ++ "\n".toList,
    "\n=== INSTRUCTION ===\n".toList ++ req.userPrompt, by simp [List.append_assoc]⟩

theorem includes_imageIgnoredNotice (name : JSString) :
    includes (imageIgnoredNotice name) "does not support vision".toList = true := by
  rw [includes_iff]
  unfold imageIgnoredNotice
  refine List.IsInfix.trans ?_ (List.suffix_append _ _).isInfix
  rw [← includes_iff]
  decide

/-- Claim C8: for a model whose lower-cased name contains none of `gpt-4`, `claude`,
`gemini`, `vision`, and a request with an image attachment, the media list passed to the
vendor client is empty and the composed prompt contains `does not support vision`. -/
theorem generateAI_media_blind (u : UnicodeLower) (req : GenerationRequest)
    (atts : List Attachment) (att : Attachment) (hatts : req.attachments = some atts)
    (hmem : att ∈ atts) (himg : startsWith att.type "image/".toList = true)
    (h1 : includes (toLowerCase u req.model) "gpt-4".toList = false)
    (h2 : includes (toLowerCase u req.model) "claude".toList = false)
    (h3 : includes (toLowerCase u req.model) "gemini".toList = false)
    (h4 : includes (toLowerCase u req.model) "vision".toList = false) :
    (LevantAPI.generateAI u true req).mediaParts = [] ∧
      includes (LevantAPI.generateAI u true req).promptText
        "does not support vision".toList = true := by
  have hcan : canSee u req = false := by
    unfold canSee
    simp only [h1, h2, h3, h4]
    rfl
  rw [(generateAI_native u req).1, (generateAI_native u req).2, hatts, hcan]
  refine ⟨processAttachments_mediaParts_false atts, ?_⟩
  apply includes_fullContext
  apply includes_of_infix_of_includes _ _ _ (includes_imageIgnoredNotice att.name)
  rw [processAttachments_textPart]
  apply List.infix_of_mem_flatten
  rw [List.mem_map]
  exact ⟨att, hmem, processOne_image_text_false att himg⟩

/-- Witness of C8: model `gpt-3.5-turbo` with one image attachment. -/
theorem generateAI_media_blind_witness :
    (LevantAPI.generateAI (fun _ c _ => [c]) true
        (scenarioRequest "openai".toList "gpt-3.5-turbo".toList
          [⟨"a.png".toList, "image/png".toList, "AAAA".toList⟩])).mediaParts = [] ∧
      includes (LevantAPI.generateAI (fun _ c _ => [c]) true
        (scenarioRequest "openai".toList "gpt-3.5-turbo".toList
          [⟨"a.png".toList, "image/png".toList, "AAAA".toList⟩])).promptText
        "does not support vision".toList = true :=
  generateAI_media_blind (fun _ c _ => [c])
    (scenarioRequest "openai".toList "gpt-3.5-turbo".toList
      [⟨"a.png".toList, "image/png".toList, "AAAA".toList⟩])
    [⟨"a.png".toList, "image/png".toList, "AAAA".toList⟩]
    ⟨"a.png".toList, "image/png".toList, "AAAA".toList⟩
    rfl (by simp) (by decide) (by decide) (by decide) (by decide) (by decide)

/-! ## `NativeAI.callOpenAICompatible`: the URL -/

theorem slice_dropLast (s : JSString) : slice s 0 (some (-1)) = s.dropLast := by
  unfold slice
  simp only [List.dropLast_eq_take]
  have h1 : (if (0 : Int) < 0 then (max ((s.length : Int) + 0) 0).toNat
      else (min (0 : Int) (s.length : Int)).toNat) = 0 := by
    rw [if_neg (by omega)]
    omega
  have h2 : (if (-1 : Int) < 0 then (max ((s.length : Int) + -1) 0).toNat
      else (min (-1 : Int) (s.length : Int)).toNat) = s.length - 1 := by
    rw [if_pos (by omega)]
    omega
  rw [h1, h2]
  rfl

theorem endsWith_singleton (s : JSString) (c : Char) :
    endsWith s [c] = true ↔ s.getLast? = some c := by
  rw [endsWith_iff]
  rcases List.eq_nil_or_concat s with h | ⟨t, b, h⟩
  · subst h
    simp
  · subst h
    rw [List.concat_eq_append, List.getLast?_concat, List.suffix_concat_iff]
    constructor
    · rintro (h | ⟨t', h, _⟩)
      · cases h
      · have := congrArg List.getLast? h
        rw [List.getLast?_concat] at this
        simpa using this.symm
    · intro h
      cases h
      exact Or.inr ⟨[], rfl, List.nil_suffix⟩

theorem not_endsWith_slash_append_path (x : JSString) :
    endsWith (x ++ "/chat/completions".toList) "/".toList = false := by
  rw [Bool.eq_false_iff]
  show ¬ (endsWith (x ++ "/chat/completions".toList) ['/'] = true)
  rw [endsWith_singleton, List.getLast?_append]
  have : ("/chat/completions".toList).getLast? = some 's' := rfl
  rw [this]
  simp

theorem includes_append_path (x : JSString) :
    includes (x ++ "/chat/completions".toList) "/chat/completions".toList = true := by
  rw [includes_iff]
  exact (List.suffix_append _ _).isInfix

/-- Removing one trailing slash does not change whether the path occurs. -/
theorem includes_path_dropLast (b : JSString) (h : endsWith b "/".toList = true) :
    includes b.dropLast "/chat/completions".toList = includes b "/chat/completions".toList := by
  have hb : b.getLast? = some '/' := (endsWith_singleton b '/').mp h
  rcases List.eq_nil_or_concat b with h0 | ⟨t, c, h0⟩
  · subst h0
    rfl
  · subst h0
    rw [List.concat_eq_append, List.getLast?_concat] at hb
    cases hb
    rw [List.concat_eq_append, List.dropLast_concat, Bool.eq_iff_iff, includes_iff, includes_iff,
      List.infix_concat_iff]
    constructor
    · exact Or.inr
    · rintro (hs | hi)
      · exfalso
        rw [List.suffix_concat_iff] at hs
        rcases hs with hs | ⟨t', hs, _⟩
        · exact absurd hs (by decide)
        · have := congrArg List.getLast? hs
          rw [List.getLast?_concat] at this
          exact absurd this (by decide)
      · exact hi

/-- The value of `req.baseUrl || "https://api.openai.com/v1"`. -/
theorem normalizeBaseUrl_eq (req : GenerationRequest) (b : JSString)
    (hb : b = match req.baseUrl with
      | some u => if u.isEmpty then "https://api.openai.com/v1".toList else u
      | none => "https://api.openai.com/v1".toList) :
    normalizeBaseUrl req =
      if includes (if endsWith b "/".toList then b.dropLast else b) "/chat/completions".toList
      then (if endsWith b "/".toList then b.dropLast else b)
      else (if endsWith b "/".toList then b.dropLast else b) ++ "/chat/completions".toList := by
  unfold normalizeBaseUrl
  simp only [← hb, slice_dropLast]
  cases includes (if endsWith b "/".toList then b.dropLast else b) "/chat/completions".toList <;>
    rfl

theorem not_endsWith_slash_strip (b : JSString) (h : endsWith b "//".toList = false) :
    endsWith (if endsWith b "/".toList then b.dropLast else b) "/".toList = false := by
  cases h1 : endsWith b "/".toList
  · simpa using h1
  · simp only [if_true]
    rw [Bool.eq_false_iff]
    intro h2
    rw [Bool.eq_false_iff] at h
    apply h
    rw [endsWith_iff] at h1 h2 ⊢
    obtain ⟨t, ht⟩ := h1
    obtain ⟨t', ht'⟩ := h2
    subst ht
    rw [show "/".toList = ['/'] from rfl, List.dropLast_concat] at ht'
    subst ht'
    exact ⟨t', by simp [List.append_assoc]⟩

theorem includes_path_ite (x : JSString) :
    includes (if includes x "/chat/completions".toList = true then x
      else x ++ "/chat/completions".toList) "/chat/completions".toList = true := by
  by_cases h : includes x "/chat/completions".toList = true
  · rw [if_pos h]
    exact h
  · rw [if_neg h]
    exact includes_append_path x

/-- Claim C10, as amended: the URL posted to always contains `/chat/completions`; it is the
base URL without one trailing slash, followed by `/chat/completions` unless the base URL
contains it already; it has no trailing slash whenever the base URL does not end in two
slashes; without a base URL it is `https://api.openai.com/v1/chat/completions`. -/
theorem callOpenAICompatible_url (req : GenerationRequest) (promptText : JSString)
    (mediaParts : List MediaPart) :
    includes (NativeAI.callOpenAICompatible req promptText mediaParts).request.url
        "/chat/completions".toList = true ∧
      ((req.baseUrl = none ∨ req.baseUrl = some []) →
        (NativeAI.callOpenAICompatible req promptText mediaParts).request.url =
          "https://api.openai.com/v1/chat/completions".toList) ∧
      (∀ b : JSString, req.baseUrl = some b → b ≠ [] →
        (NativeAI.callOpenAICompatible req promptText mediaParts).request.url =
            (if includes b "/chat/completions".toList
              then (if endsWith b "/".toList then b.dropLast else b)
              else (if endsWith b "/".toList then b.dropLast else b) ++
                "/chat/completions".toList) ∧
          (endsWith b "//".toList = false →
            endsWith (NativeAI.callOpenAICompatible req promptText mediaParts).request.url
              "/".toList = false)) := by
  show includes (normalizeBaseUrl req) _ = true ∧ (_ → normalizeBaseUrl req = _) ∧
    (∀ b : JSString, _ → _ → normalizeBaseUrl req = _ ∧ (_ → endsWith (normalizeBaseUrl req) _ = _))
  refine ⟨?_, ?_, ?_⟩
  · rw [normalizeBaseUrl_eq req _ rfl]
    exact includes_path_ite _
  · rintro (h | h) <;> · unfold normalizeBaseUrl; rw [h]; rfl
  · intro b hb hne
    have hb' : b = match req.baseUrl with
        | some u => if u.isEmpty then "https://api.openai.com/v1".toList else u
        | none => "https://api.openai.com/v1".toList := by
      rw [hb]
      cases b with
      | nil => exact absurd rfl hne
      | cons c t => rfl
    have hinc : includes (if endsWith b "/".toList then b.dropLast else b)
        "/chat/completions".toList = includes b "/chat/completions".toList := by
      cases h1 : endsWith b "/".toList
      · rfl
      · exact includes_path_dropLast b h1
    rw [normalizeBaseUrl_eq req b hb', hinc]
    refine ⟨rfl, fun h2 => ?_⟩
    cases includes b "/chat/completions".toList
    · exact not_endsWith_slash_append_path _
    · exact not_endsWith_slash_strip b h2

/-- Counterexample to C10 as stated: a base URL that contains the path and ends in two
slashes is posted to with a trailing slash. -/
theorem callOpenAICompatible_url_trailing_slash :
    (NativeAI.callOpenAICompatible
        { provider := "openai".toList, model := "gpt-4o".toList, apiKey := [],
          baseUrl := some "https://h/v1/chat/completions//".toList, systemPrompt := [],
          context := [], userPrompt := [], attachments := none } [] []).request.url =
        "https://h/v1/chat/completions/".toList ∧
      endsWith (NativeAI.callOpenAICompatible
        { provider := "openai".toList, model := "gpt-4o".toList, apiKey := [],
          baseUrl := some "https://h/v1/chat/completions//".toList, systemPrompt := [],
          context := [], userPrompt := [], attachments := none } [] []).request.url
        "/".toList = true := by
  decide

/-! ## `LevantAPI.getSaves` never fails -/

theorem getSaves_native {σ : Type} (env : Env σ) (st : σ) (hn : env.IS_NATIVE_APP = true) :
    LevantAPI.getSaves env st =
      match getSavesTry env st with
      | (.ok r, st1) => (.done (.ok r), st1)
      | (.error _, st1) => (.done (.ok { files := [] }), st1) := by
  unfold LevantAPI.getSaves
  rw [hn]
  rfl

/-- With the plugin and the storage directory resolved, `getSaves` returns the sorted
`.json` names of the entries enumerated after the attempt to create the directory. -/
theorem getSaves_of_listing {σ : Type} (env : Env σ) (st : σ) (m : CapacitorFs σ)
    (dir : JSString) (entries : List FileInfo) (hn : env.IS_NATIVE_APP = true)
    (hm : destructureCapacitorFs env = .ok m) (hd : LevantAPI._getStorageDir env = .ok dir)
    (hr : (m.Filesystem.readdir "saves".toList dir
      (m.Filesystem.mkdir "saves".toList m.Directory.Data true st).2).1 = .ok entries) :
    (LevantAPI.getSaves env st).1 = .done (.ok (FileList.mk
      (sort ((entries.map (·.name)).filter (endsWith · ".json".toList))))) := by
  rw [getSaves_native env st hn]
  unfold getSavesTry
  rw [hm]
  simp only
  rw [hd]
  simp only
  rcases hx : m.Filesystem.readdir "saves".toList dir
      (m.Filesystem.mkdir "saves".toList m.Directory.Data true st).2 with ⟨r, st2⟩
  rw [hx] at hr
  cases hr
  rfl

/-- Claim C6, as amended: in native-app mode `getSaves` always returns a list. An error of
directory creation is swallowed and the listing goes on; the list is empty when plugin
resolution, directory resolution or enumeration raises an error and when the directory
has no entry; otherwise it is the sorted list of the `.json` names enumerated. -/
theorem getSaves_never_fails {σ : Type} (env : Env σ) (st : σ)
    (hn : env.IS_NATIVE_APP = true) :
    (∃ files, (LevantAPI.getSaves env st).1 = .done (.ok { files := files })) ∧
      ((∃ e, destructureCapacitorFs env = .error e) →
        (LevantAPI.getSaves env st).1 = .done (.ok { files := [] })) ∧
      ((∃ e, LevantAPI._getStorageDir env = .error e) →
        (LevantAPI.getSaves env st).1 = .done (.ok { files := [] })) ∧
      (∀ m dir, destructureCapacitorFs env = .ok m → LevantAPI._getStorageDir env = .ok dir →
        ((∃ e, (m.Filesystem.readdir "saves".toList dir
            (m.Filesystem.mkdir "saves".toList m.Directory.Data true st).2).1 = .error e) →
          (LevantAPI.getSaves env st).1 = .done (.ok { files := [] })) ∧
        ((m.Filesystem.readdir "saves".toList dir
            (m.Filesystem.mkdir "saves".toList m.Directory.Data true st).2).1 = .ok [] →
          (LevantAPI.getSaves env st).1 = .done (.ok { files := [] })) ∧
        (∀ entries, (m.Filesystem.readdir "saves".toList dir
            (m.Filesystem.mkdir "saves".toList m.Directory.Data true st).2).1 = .ok entries →
          (LevantAPI.getSaves env st).1 = .done (.ok (FileList.mk
            (sort ((entries.map (·.name)).filter (endsWith · ".json".toList))))))) := by
  rw [getSaves_native env st hn]
  have key : ∀ m dir, destructureCapacitorFs env = .ok m →
      LevantAPI._getStorageDir env = .ok dir →
      getSavesTry env st =
        match m.Filesystem.readdir "saves".toList dir
            (m.Filesystem.mkdir "saves".toList m.Directory.Data true st).2 with
        | (.error e, st2) => (.error e, st2)
        | (.ok files, st2) =>
          (.ok { files := sort ((files.map (·.name)).filter (endsWith · ".json".toList)) },
            st2) := by
    intro m dir hm hd
    unfold getSavesTry
    rw [hm]
    simp only
    rw [hd]
  refine ⟨?_, ?_, ?_, ?_⟩
  · rcases h : getSavesTry env st with ⟨r | r, st1⟩
    · exact ⟨[], rfl⟩
    · exact ⟨r.files, rfl⟩
  · rintro ⟨e, he⟩
    unfold getSavesTry
    rw [he]
  · rintro ⟨e, he⟩
    unfold getSavesTry
    cases hm : destructureCapacitorFs env with
    | error e' => rfl
    | ok m =>
      simp only
      rw [he]
  · intro m dir hm hd
    rw [key m dir hm hd]
    refine ⟨?_, ?_, ?_⟩
    · rintro ⟨e, he⟩
      rcases hr : m.Filesystem.readdir "saves".toList dir
          (m.Filesystem.mkdir "saves".toList m.Directory.Data true st).2 with ⟨r, st2⟩
      rw [hr] at he
      cases he
      rfl
    · intro he
      rcases hr : m.Filesystem.readdir "saves".toList dir
          (m.Filesystem.mkdir "saves".toList m.Directory.Data true st).2 with ⟨r, st2⟩
      rw [hr] at he
      cases he
      rfl
    · intro entries he
      rcases hr : m.Filesystem.readdir "saves".toList dir
          (m.Filesystem.mkdir "saves".toList m.Directory.Data true st).2 with ⟨r, st2⟩
      rw [hr] at he
      cases he
      rfl

/-- Witness of C6: a native page over an empty map filesystem. -/
theorem getSaves_never_fails_witness :
    ∃ files, (LevantAPI.getSaves (mapEnv true true true true (.ok "ios".toList)) []).1 =
      .done (.ok { files := files }) :=
  (getSaves_never_fails (mapEnv true true true true (.ok "ios".toList)) [] rfl).1

/-- Counterexample to C6 as stated: directory creation raises an error (the directory
exists), yet `getSaves` returns the listing, not the empty list. -/
theorem getSaves_mkdir_error_lists :
    (existingDirectoryPlugin.mkdir "saves".toList bridgeDirectory.Data true
        [⟨"b.json".toList⟩, ⟨"a.json".toList⟩, ⟨"notes.txt".toList⟩]).1 =
        .error "Directory exists".toList ∧
      (LevantAPI.getSaves existingDirectoryEnv
        [⟨"b.json".toList⟩, ⟨"a.json".toList⟩, ⟨"notes.txt".toList⟩]).1 =
        .done (.ok { files := ["a.json".toList, "b.json".toList] }) ∧
      (LevantAPI.getSaves existingDirectoryEnv
        [⟨"b.json".toList⟩, ⟨"a.json".toList⟩, ⟨"notes.txt".toList⟩]).1 ≠
        .done (.ok { files := [] }) := by
  refine ⟨rfl, rfl, ?_⟩
  intro h
  have h2 : (LevantAPI.getSaves existingDirectoryEnv
      [⟨"b.json".toList⟩, ⟨"a.json".toList⟩, ⟨"notes.txt".toList⟩]).1 =
      .done (.ok { files := ["a.json".toList, "b.json".toList] }) := rfl
  rw [h2] at h
  cases h

/-! ## Save, load and delete over the map filesystem -/

theorem mapEnv_destructure (importResolves hasCapacitor hasBridge : Bool)
    (getPlatform : Except Err JSString) (m : CapacitorFs MapFs)
    (h : destructureCapacitorFs
      (mapEnv true importResolves hasCapacitor hasBridge getPlatform) = .ok m) :
    m = { Filesystem := mapPlugin, Directory := bridgeDirectory, Encoding := bridgeEncoding } := by
  cases importResolves <;> cases hasCapacitor <;> cases hasBridge <;>
    simp [destructureCapacitorFs, LevantAPI._getCapacitorFs, mapEnv] at h <;>
    exact h.symm

theorem childName_eq (path p name : JSString) (h : childName path p = some name) :
    p = path ++ "/".toList ++ name := by
  unfold childName at h
  split at h
  · rename_i hp
    rw [startsWith_iff] at hp
    obtain ⟨t, ht⟩ := hp
    subst ht
    simp only [List.length_append] at h
    have hd : List.drop (path.length + 1) (path ++ "/".toList ++ t) = t := by
      rw [show path.length + 1 = (path ++ "/".toList).length by simp]
      exact List.drop_left _ _
    rw [hd] at h
    split at h
    · cases h
    · cases h
      rfl
  · cases h

theorem mem_sort (names : List JSString) (n : JSString) : n ∈ sort names ↔ n ∈ names :=
  (List.perm_insertionSort sortLe names).mem_iff

theorem mapPlugin_readdir (path dir : JSString) (fs : MapFs) :
    mapPlugin.readdir path dir fs =
      (.ok ((fs.filterMap (fun e =>
        if e.1.1 = dir then childName path e.1.2 else none)).map FileInfo.mk), fs) := rfl

/-- After a file is removed from the map, the listing of its directory does not name it. -/
theorem not_mem_readdir_filter (fs : MapFs) (dir filename : JSString)
    (entries : List FileInfo) (st : MapFs)
    (h : mapPlugin.readdir "saves".toList dir
      (fs.filter (fun e => e.1 != (dir, "saves/".toList ++ filename))) = (.ok entries, st)) :
    filename ∉ entries.map (·.name) := by
  rw [mapPlugin_readdir] at h
  cases h
  intro h
  simp only [List.map_map, List.mem_map, List.mem_filterMap, List.mem_filter] at h
  obtain ⟨n, ⟨e, ⟨_, hne⟩, hchild⟩, hn⟩ := h
  have hn' : n = filename := hn
  subst hn'
  split at hchild
  · rename_i hdir
    have := childName_eq _ _ _ hchild
    apply bne_iff_ne.mp hne
    rcases e with ⟨⟨d, p⟩, t⟩
    simp only at hdir this
    rw [hdir, this]
    rfl
  · cases hchild

theorem deleteSave_mapEnv (importResolves hasCapacitor hasBridge : Bool)
    (getPlatform : Except Err JSString) (filename : JSString) (fs fs' : MapFs)
    (ack : DeleteAck)
    (hdel : LevantAPI.deleteSave (mapEnv true importResolves hasCapacitor hasBridge getPlatform)
      filename fs = (.done (.ok ack), fs')) :
    ∃ dir, destructureCapacitorFs (mapEnv true importResolves hasCapacitor hasBridge getPlatform)
        = .ok { Filesystem := mapPlugin, Directory := bridgeDirectory,
                Encoding := bridgeEncoding } ∧
      LevantAPI._getStorageDir (mapEnv true importResolves hasCapacitor hasBridge getPlatform)
        = .ok dir ∧
      fs' = fs.filter (fun e => e.1 != (dir, "saves/".toList ++ filename)) := by
  unfold LevantAPI.deleteSave at hdel
  rw [show (mapEnv true importResolves hasCapacitor hasBridge getPlatform).IS_NATIVE_APP = true
    from rfl] at hdel
  simp only [Bool.not_true, Bool.false_eq_true, if_false] at hdel
  cases hm : destructureCapacitorFs (mapEnv true importResolves hasCapacitor hasBridge getPlatform)
    with
  | error e =>
    rw [hm] at hdel
    simp at hdel
  | ok m =>
    have hstd := mapEnv_destructure _ _ _ _ m hm
    subst hstd
    rw [hm] at hdel
    simp only at hdel
    cases hd : LevantAPI._getStorageDir
      (mapEnv true importResolves hasCapacitor hasBridge getPlatform) with
    | error e =>
      rw [hd] at hdel
      simp at hdel
    | ok dir =>
      rw [hd] at hdel
      simp only [mapPlugin] at hdel
      refine ⟨dir, rfl, rfl, ?_⟩
      cases hl : List.lookup (dir, "saves/".toList ++ filename) fs with
      | none =>
        rw [hl] at hdel
        simp at hdel
      | some t =>
        rw [hl] at hdel
        simp only [Prod.mk.injEq] at hdel
        exact hdel.2.symm

/-- Claim C5: in native-app mode over a map filesystem, after a successful
`deleteSave(filename)` the list returned by `getSaves()` does not contain `filename`. -/
theorem deleteSave_then_getSaves (importResolves hasCapacitor hasBridge : Bool)
    (getPlatform : Except Err JSString) (filename : JSString) (fs fs' : MapFs)
    (ack : DeleteAck)
    (hdel : LevantAPI.deleteSave (mapEnv true importResolves hasCapacitor hasBridge getPlatform)
      filename fs = (.done (.ok ack), fs')) :
    ∃ files,
      (LevantAPI.getSaves (mapEnv true importResolves hasCapacitor hasBridge getPlatform) fs').1 =
        .done (.ok { files := files }) ∧
      filename ∉ files := by
  obtain ⟨dir, hm, hd, hfs⟩ := deleteSave_mapEnv _ _ _ _ _ _ _ _ hdel
  have hlist := getSaves_of_listing
    (mapEnv true importResolves hasCapacitor hasBridge getPlatform) fs' _ dir _ rfl hm hd
    (congrArg Prod.fst (mapPlugin_readdir "saves".toList dir fs'))
  refine ⟨_, hlist, ?_⟩
  rw [mem_sort, List.mem_filter]
  rintro ⟨hmem, _⟩
  refine not_mem_readdir_filter fs dir filename _ fs' ?_ hmem
  rw [mapPlugin_readdir, hfs]

/-- Witness of C5: two saves on an Android page, the first of which is deleted. -/
theorem deleteSave_then_getSaves_witness :
    ∃ files,
      (LevantAPI.getSaves (mapEnv true true true true (.ok "android".toList))
        [(("EXTERNAL".toList, "saves/b.json".toList), "{}".toList)]).1 =
        .done (.ok { files := files }) ∧
      "a.json".toList ∉ files :=
  deleteSave_then_getSaves true true true (.ok "android".toList) "a.json".toList
    [(("EXTERNAL".toList, "saves/a.json".toList), "{}".toList),
      (("EXTERNAL".toList, "saves/b.json".toList), "{}".toList)]
    [(("EXTERNAL".toList, "saves/b.json".toList), "{}".toList)]
    { status := "deleted".toList } rfl

/-- Claim C4: in native-app mode over a map filesystem, for a value that `JSON.parse`
recovers from its `JSON.stringify` text, a successful `saveGame(filename, data)` followed
by `loadGame(filename)` returns `data`, for every filename: load reads the directory and
path that save wrote. -/
theorem saveGame_then_loadGame {δ : Type} (json : JSON δ)
    (importResolves hasCapacitor hasBridge : Bool) (getPlatform : Except Err JSString)
    (filename : JSString) (data : δ) (fs fs' : MapFs) (ack : SaveAck)
    (hjson : ∀ text, json.stringify data = .ok text → json.parse text = .ok data)
    (hsave : LevantAPI.saveGame json
      (mapEnv true importResolves hasCapacitor hasBridge getPlatform) filename data fs =
        (.done (.ok ack), fs')) :
    (LevantAPI.loadGame json (mapEnv true importResolves hasCapacitor hasBridge getPlatform)
      filename fs').1 = .done (.ok data) := by
  unfold LevantAPI.saveGame at hsave
  unfold LevantAPI.loadGame
  rw [show (mapEnv true importResolves hasCapacitor hasBridge getPlatform).IS_NATIVE_APP = true
    from rfl] at hsave ⊢
  simp only [Bool.not_true, Bool.false_eq_true, if_false] at hsave ⊢
  cases hm : destructureCapacitorFs (mapEnv true importResolves hasCapacitor hasBridge getPlatform)
    with
  | error e =>
    rw [hm] at hsave
    simp at hsave
  | ok m =>
    have hstd := mapEnv_destructure _ _ _ _ m hm
    subst hstd
    rw [hm] at hsave
    simp only at hsave ⊢
    cases hd : LevantAPI._getStorageDir
      (mapEnv true importResolves hasCapacitor hasBridge getPlatform) with
    | error e =>
      rw [hd] at hsave
      simp at hsave
    | ok dir =>
      rw [hd] at hsave
      simp only at hsave ⊢
      cases hs : json.stringify data with
      | error e =>
        rw [hs] at hsave
        simp at hsave
      | ok text =>
        rw [hs] at hsave
        simp only [mapPlugin, Prod.mk.injEq] at hsave
        have hfs : fs' = ((dir, "saves/".toList ++ filename), text) ::
            fs.filter (fun e => e.1 != (dir, "saves/".toList ++ filename)) := hsave.2.symm
        have hread : mapPlugin.readFile ("saves/".toList ++ filename) dir bridgeEncoding.UTF8 fs'
            = (.ok text, fs') := by
          simp only [mapPlugin, hfs, List.lookup, beq_self_eq_true]
        rw [hread]
        simp only
        rw [hjson text hs]

/-- Witness of C4: the value `true` saved to `slot1.json` on an Android page. -/
theorem saveGame_then_loadGame_witness :
    (LevantAPI.loadGame booleanJSON (mapEnv true true true true (.ok "android".toList))
      "slot1.json".toList
      [(("EXTERNAL".toList, "saves/slot1.json".toList), "true".toList)]).1 =
        .done (.ok true) :=
  saveGame_then_loadGame booleanJSON true true true (.ok "android".toList)
    "slot1.json".toList true [] [(("EXTERNAL".toList, "saves/slot1.json".toList), "true".toList)]
    { status := "saved".toList, filename := "slot1.json".toList }
    (fun text h => by
      cases h
      rfl)
    rfl

/-! ## `Utils.b64DecodeUnicode` inverts base64 of UTF-8 -/

set_option maxRecDepth 100000 in
theorem percentByte_eq : ∀ b, b < 256 →
    percentByte b = ['%', Nat.digitChar (b / 16), Nat.digitChar (b % 16)] := by
  decide

theorem hexVal_digitChar : ∀ d, d < 16 → hexVal (Nat.digitChar d) = some d := by
  decide

theorem sextetOf_base64Char : ∀ v, v < 64 → sextetOf (base64Char v) = some v := by
  decide

theorem base64Char_not_pad : ∀ v, v < 64 →
    (base64Char v ≠ '=' ∧ isAsciiWhitespace (base64Char v) = false) := by
  decide

theorem parseHexOctet_digits (b : Nat) (hb : b < 256) (tail : JSString) :
    parseHexOctet (Nat.digitChar (b / 16) :: Nat.digitChar (b % 16) :: tail) = some b := by
  rw [parseHexOctet, hexVal_digitChar _ (by omega), hexVal_digitChar _ (by omega)]
  simp only [Option.some.injEq]
  omega

theorem isContinuation_iff (b : Nat) : isContinuation b = true ↔ 0x80 ≤ b ∧ b ≤ 0xBF := by
  simp [isContinuation]

/-- The percent-escaped form of a byte sequence. -/
theorem flatten_percent_cons (b : Nat) (hb : b < 256) (bs : List Nat) :
    ((b :: bs).map percentByte).flatten =
      '%' :: Nat.digitChar (b / 16) :: Nat.digitChar (b % 16) ::
        (bs.map percentByte).flatten := by
  rw [List.map_cons, List.flatten_cons, percentByte_eq b hb]
  rfl

theorem continuationOctets_percent (bs : List Nat) (hbs : ∀ b ∈ bs, b < 256)
    (tail : JSString) :
    continuationOctets bs.length ((bs.map percentByte).flatten ++ tail) = some (bs, tail) := by
  induction bs with
  | nil => rfl
  | cons b bs ih =>
    have hb : b < 256 := hbs b (List.mem_cons_self _ _)
    rw [flatten_percent_cons b hb bs]
    show continuationOctets (bs.length + 1) ('%' :: Nat.digitChar (b / 16) ::
      Nat.digitChar (b % 16) :: ((bs.map percentByte).flatten ++ tail)) = _
    rw [continuationOctets, if_pos rfl, parseHexOctet_digits b hb]
    show (match some b, continuationOctets bs.length ((bs.map percentByte).flatten ++ tail) with
      | some b, some (bs, r) => some (b :: bs, r)
      | _, _ => none) = _
    rw [ih (fun x hx => hbs x (List.mem_cons_of_mem _ hx))]

theorem char_valid (c : Char) :
    c.toNat < 0xD800 ∨ (0xDFFF < c.toNat ∧ c.toNat < 0x110000) := c.valid

theorem utf8Bytes_lt (c : Char) : ∀ b ∈ utf8Bytes c, b < 256 := by
  have hv := char_valid c
  unfold utf8Bytes
  intro b hb
  simp only at hb
  split at hb
  · simp only [List.mem_singleton] at hb
    omega
  · split at hb
    · simp only [List.mem_cons, List.mem_singleton, List.not_mem_nil, or_false] at hb
      omega
    · split at hb
      · simp only [List.mem_cons, List.mem_singleton, List.not_mem_nil, or_false] at hb
        omega
      · simp only [List.mem_cons, List.mem_singleton, List.not_mem_nil, or_false] at hb
        omega

theorem utf8Encode_lt (s : JSString) : ∀ b ∈ utf8Encode s, b < 256 := by
  intro b hb
  unfold utf8Encode at hb
  rw [List.mem_flatMap] at hb
  obtain ⟨c, _, hc⟩ := hb
  exact utf8Bytes_lt c b hc

theorem decodeLoop_percent (fuel : Nat) (rest : JSString) :
    decodeLoop (fuel + 1) ('%' :: rest) =
      match parseHexOctet rest with
      | none => .error "URIError".toList
      | some b =>
        if leadingOnes b = 0 then (decodeLoop fuel (rest.drop 2)).map (Char.ofNat b :: ·)
        else if leadingOnes b = 1 ∨ leadingOnes b > 4 then .error "URIError".toList
        else
          match continuationOctets (leadingOnes b - 1) (rest.drop 2) with
          | none => .error "URIError".toList
          | some (octets, rest') =>
            match utf8CodePoint (b :: octets) with
            | none => .error "URIError".toList
            | some v => (decodeLoop fuel rest').map (Char.ofNat v :: ·) := by
  rw [decodeLoop]
  simp

/-- The shape of the UTF-8 encoding of a character, as `Decode` reads it back. -/
theorem utf8Bytes_spec (c : Char) :
    (utf8Bytes c = [c.toNat] ∧ leadingOnes c.toNat = 0) ∨
      ∃ b0 bs, utf8Bytes c = b0 :: bs ∧ leadingOnes b0 = bs.length + 1 ∧
        1 ≤ bs.length ∧ bs.length ≤ 3 ∧ utf8CodePoint (b0 :: bs) = some c.toNat := by
  have hv := char_valid c
  unfold utf8Bytes
  simp only
  split
  · left
    refine ⟨rfl, ?_⟩
    unfold leadingOnes
    rw [if_pos (by omega)]
  · right
    split
    · refine ⟨_, _, rfl, ?_, by simp, by simp, ?_⟩
      · unfold leadingOnes
        simp only [List.length_cons, List.length_nil]
        rw [if_neg (by omega), if_neg (by omega), if_pos (by omega)]
      · unfold utf8CodePoint
        simp only [isContinuation_iff]
        rw [if_pos (by omega)]
        simp only [Option.some.injEq]
        omega
    · split
      · refine ⟨_, _, rfl, ?_, by simp, by simp, ?_⟩
        · unfold leadingOnes
          simp only [List.length_cons, List.length_nil]
          rw [if_neg (by omega), if_neg (by omega), if_neg (by omega), if_pos (by omega)]
        · unfold utf8CodePoint
          simp only [isContinuation_iff]
          rw [if_pos (by omega)]
          simp only [Option.some.injEq]
          omega
      · refine ⟨_, _, rfl, ?_, by simp, by simp, ?_⟩
        · unfold leadingOnes
          simp only [List.length_cons, List.length_nil]
          rw [if_neg (by omega), if_neg (by omega), if_neg (by omega), if_neg (by omega),
            if_pos (by omega)]
        · unfold utf8CodePoint
          simp only [isContinuation_iff]
          rw [if_pos (by omega)]
          simp only [Option.some.injEq]
          omega

/-- One iteration of `Decode` reads back one encoded character. -/
theorem decodeLoop_char (fuel : Nat) (c : Char) (tail : JSString) :
    decodeLoop (fuel + 1) (((utf8Bytes c).map percentByte).flatten ++ tail) =
      (decodeLoop fuel tail).map (c :: ·) := by
  have hlt := utf8Bytes_lt c
  rcases utf8Bytes_spec c with ⟨h1, h0⟩ | ⟨b0, bs, hb, hn, hlo, hhi, hcp⟩
  · rw [h1] at hlt ⊢
    have hb : c.toNat < 256 := hlt _ (List.mem_singleton_self _)
    rw [flatten_percent_cons _ hb []]
    show decodeLoop (fuel + 1) ('%' :: Nat.digitChar (c.toNat / 16) ::
      Nat.digitChar (c.toNat % 16) :: tail) = _
    rw [decodeLoop_percent, parseHexOctet_digits _ hb]
    simp only
    rw [if_pos h0, Char.ofNat_toNat]
    rfl
  · rw [hb] at hlt ⊢
    have hb0 : b0 < 256 := hlt _ (List.mem_cons_self _ _)
    rw [flatten_percent_cons _ hb0 bs]
    show decodeLoop (fuel + 1) ('%' :: Nat.digitChar (b0 / 16) ::
      Nat.digitChar (b0 % 16) :: ((bs.map percentByte).flatten ++ tail)) = _
    rw [decodeLoop_percent, parseHexOctet_digits _ hb0]
    simp only
    rw [if_neg (by omega), if_neg (by omega), hn]
    show (match continuationOctets bs.length ((bs.map percentByte).flatten ++ tail) with
      | none => Except.error "URIError".toList
      | some (octets, rest') =>
        match utf8CodePoint (b0 :: octets) with
        | none => Except.error "URIError".toList
        | some v => (decodeLoop fuel rest').map (Char.ofNat v :: ·)) = _
    rw [continuationOctets_percent bs (fun x hx => hlt x (List.mem_cons_of_mem _ hx))]
    simp only
    rw [hcp]
    simp only
    rw [Char.ofNat_toNat]

theorem decodeLoop_utf8 (s : JSString) :
    ∀ fuel, s.length ≤ fuel →
      decodeLoop fuel (((utf8Encode s).map percentByte).flatten) = .ok s := by
  induction s with
  | nil =>
    intro fuel _
    cases fuel <;> rfl
  | cons c rest ih =>
    intro fuel hf
    obtain ⟨fuel', rfl⟩ : ∃ k, fuel = k + 1 := ⟨fuel - 1, by simp at hf; omega⟩
    have hsplit : ((utf8Encode (c :: rest)).map percentByte).flatten =
        ((utf8Bytes c).map percentByte).flatten ++
          ((utf8Encode rest).map percentByte).flatten := by
      simp [utf8Encode, List.flatMap_cons]
    rw [hsplit, decodeLoop_char, ih fuel' (by simp at hf; omega)]
    rfl

theorem length_le_percent (s : JSString) :
    s.length ≤ (((utf8Encode s).map percentByte).flatten).length := by
  induction s with
  | nil => simp
  | cons c rest ih =>
    have hsplit : ((utf8Encode (c :: rest)).map percentByte).flatten =
        ((utf8Bytes c).map percentByte).flatten ++
          ((utf8Encode rest).map percentByte).flatten := by
      simp [utf8Encode, List.flatMap_cons]
    rw [hsplit, List.length_append, List.length_cons]
    have : 1 ≤ (((utf8Bytes c).map percentByte).flatten).length := by
      rcases utf8Bytes_spec c with ⟨h1, _⟩ | ⟨b0, bs, hb, _⟩
      · rw [h1]
        simp [percentByte]
      · rw [hb]
        simp [percentByte]
    omega

/-- The function `decodeURIComponent` reads back the escaped UTF-8 bytes of a string. -/
theorem decodeURIComponent_utf8 (s : JSString) :
    decodeURIComponent (((utf8Encode s).map percentByte).flatten) = .ok s :=
  decodeLoop_utf8 s _ (length_le_percent s)

theorem encodeSextets_lt (bytes : List Nat) (h : ∀ b ∈ bytes, b < 256) :
    ∀ v ∈ encodeSextets bytes, v < 64 := by
  induction bytes using encodeSextets.induct with
  | case1 => simp [encodeSextets]
  | case2 a =>
    have ha := h a (by simp)
    intro v hv
    simp only [encodeSextets, List.mem_cons, List.mem_singleton, List.not_mem_nil, or_false] at hv
    omega
  | case3 a b =>
    have ha := h a (by simp)
    have hb := h b (by simp)
    intro v hv
    simp only [encodeSextets, List.mem_cons, List.mem_singleton, List.not_mem_nil, or_false] at hv
    omega
  | case4 a b c rest ih =>
    have ha := h a (by simp)
    have hb := h b (by simp)
    have hc := h c (by simp)
    intro v hv
    simp only [encodeSextets, List.mem_cons] at hv
    rcases hv with hv | hv | hv | hv | hv
    · omega
    · omega
    · omega
    · omega
    · exact ih (fun x hx => h x (by simp [hx])) v hv

theorem decodeSextets_encodeSextets (bytes : List Nat) (h : ∀ b ∈ bytes, b < 256) :
    decodeSextets (encodeSextets bytes) = bytes := by
  induction bytes using encodeSextets.induct with
  | case1 => rfl
  | case2 a =>
    have ha := h a (by simp)
    simp only [encodeSextets, decodeSextets, List.cons.injEq, and_true]
    omega
  | case3 a b =>
    have ha := h a (by simp)
    have hb := h b (by simp)
    simp only [encodeSextets, decodeSextets, List.cons.injEq, and_true]
    omega
  | case4 a b c rest ih =>
    have ha := h a (by simp)
    have hb := h b (by simp)
    have hc := h c (by simp)
    simp only [encodeSextets, decodeSextets, List.cons.injEq]
    refine ⟨by omega, by omega, by omega, ih (fun x hx => h x (by simp [hx]))⟩

theorem length_encodeSextets (bytes : List Nat) :
    (encodeSextets bytes).length = (4 * bytes.length + 2) / 3 := by
  induction bytes using encodeSextets.induct with
  | case1 => rfl
  | case2 a => simp [encodeSextets]
  | case3 a b => simp [encodeSextets]
  | case4 a b c rest ih =>
    simp only [encodeSextets, List.length_cons, ih]
    omega

theorem sextets_map_base64Char (vs : List Nat) (h : ∀ v ∈ vs, v < 64) :
    sextets (vs.map base64Char) = some vs := by
  induction vs with
  | nil => rfl
  | cons v vs ih =>
    rw [List.map_cons, sextets, sextetOf_base64Char v (h v (by simp)),
      ih (fun x hx => h x (by simp [hx]))]

theorem slice_neg_two (s : JSString) : slice s 0 (some (-2)) = s.take (s.length - 2) := by
  unfold slice
  have h1 : (if (0 : Int) < 0 then (max ((s.length : Int) + 0) 0).toNat
      else (min (0 : Int) (s.length : Int)).toNat) = 0 := by
    rw [if_neg (by omega)]
    omega
  have h2 : (if (-2 : Int) < 0 then (max ((s.length : Int) + -2) 0).toNat
      else (min (-2 : Int) (s.length : Int)).toNat) = s.length - 2 := by
    rw [if_pos (by omega)]
    omega
  simp only
  rw [h1, h2]
  rfl

theorem not_endsWith_of_not_mem (body p : JSString) (c : Char) (hc : c ∈ p)
    (hbody : c ∉ body) : endsWith body p = false := by
  rw [Bool.eq_false_iff]
  intro h
  rw [endsWith_iff] at h
  exact hbody (h.subset hc)

/-- The padding step of `atob` on a padded string removes exactly the padding. -/
theorem strip_padding (body pad : JSString) (hbody : '=' ∉ body)
    (hpad : pad = [] ∨ pad = ['='] ∨ pad = ['=', '=']) :
    (if endsWith (body ++ pad) "==".toList then slice (body ++ pad) 0 (some (-2))
      else if endsWith (body ++ pad) "=".toList then slice (body ++ pad) 0 (some (-1))
      else body ++ pad) = body := by
  rcases hpad with h | h | h
  · subst h
    rw [List.append_nil, not_endsWith_of_not_mem body _ '=' (by decide) hbody,
      not_endsWith_of_not_mem body _ '=' (by decide) hbody]
    rfl
  · subst h
    have h1 : endsWith (body ++ ['=']) "==".toList = false := by
      rw [Bool.eq_false_iff]
      intro h
      rw [endsWith_iff] at h
      rw [show "==".toList = ['='] ++ ['='] from rfl, List.suffix_concat_iff] at h
      rcases h with h | ⟨t, ht, hs⟩
      · cases h
      · have : t = ['='] := by
          have := List.append_inj_left' ht rfl
          exact this.symm
        subst this
        exact hbody (hs.subset (by simp))
    have h2 : endsWith (body ++ ['=']) "=".toList = true := by
      rw [endsWith_iff]
      exact List.suffix_append _ _
    rw [h1, h2, slice_dropLast, List.dropLast_concat]
    rfl
  · subst h
    have h1 : endsWith (body ++ ['=', '=']) "==".toList = true := by
      rw [endsWith_iff]
      exact List.suffix_append _ _
    rw [h1, slice_neg_two]
    simp

/-- The function `atob` inverts the standard base64 encoding. -/
theorem atob_base64Encode (bytes : List Nat) (h : ∀ b ∈ bytes, b < 256) :
    atob (base64Encode bytes) = .ok bytes := by
  have hlt := encodeSextets_lt bytes h
  have hbody : '=' ∉ (encodeSextets bytes).map base64Char := by
    intro hmem
    rw [List.mem_map] at hmem
    obtain ⟨v, hv, he⟩ := hmem
    exact (base64Char_not_pad v (hlt v hv)).1 he
  have hpad : base64Padding bytes = [] ∨ base64Padding bytes = ['='] ∨
      base64Padding bytes = ['=', '='] := by
    unfold base64Padding
    split
    · exact Or.inr (Or.inr rfl)
    · split
      · exact Or.inr (Or.inl rfl)
      · exact Or.inl rfl
  have hlen : (base64Encode bytes).length % 4 = 0 := by
    unfold base64Encode base64Padding
    rw [List.length_append, List.length_map, length_encodeSextets]
    split
    · simp only [List.length_cons, List.length_nil]
      omega
    · split
      · simp only [List.length_cons, List.length_nil]
        omega
      · simp only [List.length_nil]
        omega
  have hfilter : (base64Encode bytes).filter (fun c => !isAsciiWhitespace c) =
      base64Encode bytes := by
    rw [List.filter_eq_self]
    intro c hc
    unfold base64Encode at hc
    rw [List.mem_append, List.mem_map] at hc
    rcases hc with ⟨v, hv, rfl⟩ | hc
    · rw [(base64Char_not_pad v (hlt v hv)).2]
      rfl
    · rcases hpad with hp | hp | hp <;> rw [hp] at hc <;> simp at hc <;> subst hc <;> rfl
  unfold atob
  simp only [hfilter, hlen, if_true]
  have hstrip := strip_padding _ _ hbody hpad
  rw [show (encodeSextets bytes).map base64Char ++ base64Padding bytes = base64Encode bytes
    from rfl] at hstrip
  rw [hstrip, List.length_map, length_encodeSextets, if_neg (by omega),
    sextets_map_base64Char _ hlt]
  simp only
  rw [decodeSextets_encodeSextets bytes h]

/-- Claim C1: the text returned by `Utils.processAttachments` is the concatenation, in input
order, of one segment per attachment, and the segment of a text-type attachment is exactly
`"\n\n=== FILE: <name> ===\n<decoded payload>\n"`, where the decoded payload is what
`Utils.b64DecodeUnicode` returns for the cleaned payload: the text itself whenever the
cleaned payload is the base64 encoding of the UTF-8 bytes of a text. -/
theorem processAttachments_text_segments (atts : List Attachment) (allowImage : Bool) :
    ∃ segments : List JSString,
      List.Forall₂ (fun att segment =>
        (startsWith att.type "image/".toList = false ∧
          (startsWith att.type "text/".toList = true ∨ endsWith att.name ".txt".toList = true ∨
            endsWith att.name ".md".toList = true ∨ endsWith att.name ".json".toList = true ∨
            endsWith att.name ".py".toList = true)) →
          segment = "\n\n=== FILE: ".toList ++ att.name ++ " ===\n".toList ++
            Utils.b64DecodeUnicode (cleanData att.data) ++ "\n".toList ∧
          ∀ text : JSString, cleanData att.data = base64Encode (utf8Encode text) →
            segment = "\n\n=== FILE: ".toList ++ att.name ++ " ===\n".toList ++ text ++
              "\n".toList) atts segments ∧
      (Utils.processAttachments (some atts) allowImage).textPart = segments.flatten := by
  refine ⟨atts.map (fun att => (processOne allowImage ⟨[], []⟩ att).textPart), ?_,
    processAttachments_textPart allowImage atts⟩
  rw [List.forall₂_map_right_iff, List.forall₂_same]
  intro att _ h
  have htxt : isTextFile att = true := by
    simpa [isTextFile, Bool.or_assoc] using h.2
  rw [processOne_textFile allowImage att h.1 htxt]
  refine ⟨rfl, fun text htext => ?_⟩
  have hdec : Utils.b64DecodeUnicode (base64Encode (utf8Encode text)) = text := by
    unfold Utils.b64DecodeUnicode
    rw [atob_base64Encode _ (utf8Encode_lt text)]
    show (match decodeURIComponent (((utf8Encode text).map percentByte).flatten) with
      | .ok r => r
      | .error _ => base64Encode (utf8Encode text)) = text
    rw [decodeURIComponent_utf8]
  rw [htext, hdec]
  rfl

/-- Claim C9: `Utils.b64DecodeUnicode` applied to the standard base64 encoding of the UTF-8
bytes of a Unicode string returns that string, multi-byte characters included. -/
theorem b64DecodeUnicode_base64_utf8 (s : JSString) :
    Utils.b64DecodeUnicode (base64Encode (utf8Encode s)) = s := by
  unfold Utils.b64DecodeUnicode
  rw [atob_base64Encode _ (utf8Encode_lt s)]
  show (match decodeURIComponent (((utf8Encode s).map percentByte).flatten) with
    | .ok r => r
    | .error _ => base64Encode (utf8Encode s)) = s
  rw [decodeURIComponent_utf8]

/-! ## `NativeAI.callGemini`: the response -/

theorem geminiExtract_no_candidates (nt : NumberToBoolean) (json candidates : JSValue)
    (h : json.prop "candidates".toList = .ok candidates)
    (hno : candidates = .undefined ∨ candidates = .null ∨ candidates = .arr []) :
    geminiExtract nt json =
      .error "Gemini returned no candidates (Possible safety block).".toList := by
  unfold geminiExtract
  rw [h]
  rcases hno with h | h | h <;> subst h <;> rfl

/-- With a first candidate, the `try` block goes on with its content. -/
theorem geminiExtract_first (nt : NumberToBoolean) (json first : JSValue) (rest : List JSValue)
    (h : json.prop "candidates".toList = .ok (.arr (first :: rest))) :
    geminiExtract nt json =
      (do
        let content ← first.prop "content".toList
        let parts ←
          match content with
          | .undefined => pure JSValue.undefined
          | .null => pure JSValue.undefined
          | c => c.prop "parts".toList
        let noParts ← if !parts.truthy nt then pure true else parts.lengthIsZero nt
        if noParts then
          throw "Gemini returned empty content.".toList
        let part ← parts.index 0
        let text ← part.prop "text".toList
        pure (.obj [("result".toList, text)])) := by
  unfold geminiExtract
  rw [h]
  rfl

theorem prop_ok_ne (v r : JSValue) (key : JSString) (h : v.prop key = .ok r) :
    v ≠ .undefined ∧ v ≠ .null := by
  constructor <;> intro hv <;> subst hv <;> cases h

theorem geminiExtract_no_parts (nt : NumberToBoolean) (json first : JSValue)
    (rest : List JSValue) (h : json.prop "candidates".toList = .ok (.arr (first :: rest)))
    (hno : first.prop "content".toList = .ok .undefined ∨
      first.prop "content".toList = .ok .null ∨
      ∃ content, first.prop "content".toList = .ok content ∧
        (content.prop "parts".toList = .ok .undefined ∨
          content.prop "parts".toList = .ok .null ∨
          content.prop "parts".toList = .ok (.arr []))) :
    geminiExtract nt json = .error "Gemini returned empty content.".toList := by
  rw [geminiExtract_first nt json first rest h]
  rcases hno with hc | hc | ⟨content, hc, hp⟩
  · rw [hc]
    rfl
  · rw [hc]
    rfl
  · rw [hc]
    rcases hp with hp | hp | hp
    all_goals
      have hne := prop_ok_ne _ _ _ hp
      cases content
      · exact absurd rfl hne.1
      · exact absurd rfl hne.2
      all_goals
        simp only [bind, Except.bind]
        rw [hp]
        rfl

theorem geminiExtract_parts (nt : NumberToBoolean) (json first content part : JSValue)
    (rest parts : List JSValue)
    (h : json.prop "candidates".toList = .ok (.arr (first :: rest)))
    (hc : first.prop "content".toList = .ok content)
    (hp : content.prop "parts".toList = .ok (.arr (part :: parts))) :
    geminiExtract nt json =
      (part.prop "text".toList).map (fun text => .obj [("result".toList, text)]) := by
  rw [geminiExtract_first nt json first rest h, hc]
  have hne := prop_ok_ne _ _ _ hp
  cases content
  · exact absurd rfl hne.1
  · exact absurd rfl hne.2
  all_goals
    simp only [bind, Except.bind]
    rw [hp]
    simp only [JSValue.truthy, JSValue.lengthIsZero, JSValue.index, pure, Except.pure,
      Bool.not_true, Bool.false_eq_true, if_false, List.isEmpty_cons, List.getD_cons_zero]
    cases part.prop "text".toList <;> rfl

theorem callGemini_ok (nt : NumberToBoolean) (req : GenerationRequest) (promptText : JSString)
    (mediaParts : List MediaPart) (response : Response) (json : JSValue)
    (hok : response.ok = true) (hjson : response.json = .ok json) :
    (NativeAI.callGemini nt req promptText mediaParts).onResponse response =
      match geminiExtract nt json with
      | .ok r => .ok r
      | .error e => .error ("Gemini response parsing failed: ".toList ++ e) := by
  show (if !response.ok then _ else _) = _
  rw [hok, hjson]
  rfl

theorem callGemini_not_ok (nt : NumberToBoolean) (req : GenerationRequest)
    (promptText : JSString) (mediaParts : List MediaPart) (response : Response)
    (hok : response.ok = false) :
    (NativeAI.callGemini nt req promptText mediaParts).onResponse response =
      .error ("Gemini Error ".toList ++ Nat.toDigits 10 response.status ++ ": ".toList ++
        response.text) := by
  show (if !response.ok then _ else _) = _
  rw [hok]
  rfl

/-- Claim C11, as amended: `callGemini` fails when the status is not successful, when the
body is not JSON or not an object, when it has no candidates (missing or empty list), when
the first candidate has no content parts (missing content, missing parts or empty parts) and
when the first part is `null`; it returns `{ result: t }`, with `t` the `text` property of
the first part of the first candidate, whenever the candidates and the parts of the first
candidate are non-empty lists and the first part is not `null`. -/
theorem callGemini_response (nt : NumberToBoolean) (req : GenerationRequest)
    (promptText : JSString) (mediaParts : List MediaPart) (response : Response) :
    (response.ok = false →
        ∃ e, (NativeAI.callGemini nt req promptText mediaParts).onResponse response =
          .error e) ∧
      ((∃ e, response.json = .error e) →
        ∃ e, (NativeAI.callGemini nt req promptText mediaParts).onResponse response =
          .error e) ∧
      (∀ json, response.ok = true → response.json = .ok json →
        ((∃ e, json.prop "candidates".toList = .error e) →
          ∃ e, (NativeAI.callGemini nt req promptText mediaParts).onResponse response =
            .error e) ∧
        ((json.prop "candidates".toList = .ok .undefined ∨
            json.prop "candidates".toList = .ok .null ∨
            json.prop "candidates".toList = .ok (.arr [])) →
          ∃ e, (NativeAI.callGemini nt req promptText mediaParts).onResponse response =
            .error e) ∧
        (∀ first rest, json.prop "candidates".toList = .ok (.arr (first :: rest)) →
          ((first.prop "content".toList = .ok .undefined ∨
              first.prop "content".toList = .ok .null ∨
              ∃ content, first.prop "content".toList = .ok content ∧
                (content.prop "parts".toList = .ok .undefined ∨
                  content.prop "parts".toList = .ok .null ∨
                  content.prop "parts".toList = .ok (.arr []))) →
            ∃ e, (NativeAI.callGemini nt req promptText mediaParts).onResponse response =
              .error e) ∧
          (∀ content part parts, first.prop "content".toList = .ok content →
            content.prop "parts".toList = .ok (.arr (part :: parts)) →
            (∀ t, part.prop "text".toList = .ok t →
              (NativeAI.callGemini nt req promptText mediaParts).onResponse response =
                .ok (.obj [("result".toList, t)])) ∧
            (part = .null →
              ∃ e, (NativeAI.callGemini nt req promptText mediaParts).onResponse response =
                .error e)))) := by
  refine ⟨fun hok => ?_, fun hj => ?_, fun json hok hjson => ⟨fun hc => ?_, fun hc => ?_,
    fun first rest hc => ⟨fun hno => ?_, fun content part parts hcont hparts =>
      ⟨fun t ht => ?_, fun hnull => ?_⟩⟩⟩⟩
  · exact ⟨_, callGemini_not_ok nt req promptText mediaParts response hok⟩
  · obtain ⟨e, he⟩ := hj
    cases hok : response.ok
    · exact ⟨_, callGemini_not_ok nt req promptText mediaParts response hok⟩
    · refine ⟨e, ?_⟩
      show (if !response.ok then _ else _) = _
      rw [hok, he]
      rfl
  · obtain ⟨e, he⟩ := hc
    rw [callGemini_ok nt req promptText mediaParts response json hok hjson]
    have : geminiExtract nt json = .error e := by
      unfold geminiExtract
      rw [he]
      rfl
    rw [this]
    exact ⟨_, rfl⟩
  · rw [callGemini_ok nt req promptText mediaParts response json hok hjson]
    have : geminiExtract nt json =
        .error "Gemini returned no candidates (Possible safety block).".toList := by
      rcases hc with h | h | h
      · exact geminiExtract_no_candidates nt json _ h (Or.inl rfl)
      · exact geminiExtract_no_candidates nt json _ h (Or.inr (Or.inl rfl))
      · exact geminiExtract_no_candidates nt json _ h (Or.inr (Or.inr rfl))
    rw [this]
    exact ⟨_, rfl⟩
  · rw [callGemini_ok nt req promptText mediaParts response json hok hjson,
      geminiExtract_no_parts nt json first rest hc hno]
    exact ⟨_, rfl⟩
  · rw [callGemini_ok nt req promptText mediaParts response json hok hjson,
      geminiExtract_parts nt json first content part rest parts hc hcont hparts, ht]
    rfl
  · subst hnull
    rw [callGemini_ok nt req promptText mediaParts response json hok hjson,
      geminiExtract_parts nt json first content _ rest parts hc hcont hparts]
    exact ⟨_, rfl⟩

/-- Counterexample to C11 as stated: the status is successful, the body has a candidate
whose content has a non-empty list of parts, and the call fails (the first part is
`null`). -/
theorem callGemini_null_part_fails :
    (NativeAI.callGemini (fun _ => true) (scenarioRequest "gemini".toList "gemini-pro".toList [])
        [] []).onResponse
      { ok := true, status := 200, text := [],
        json := .ok (.obj [("candidates".toList, .arr [.obj [("content".toList,
          .obj [("parts".toList, .arr [.null])])]])]) } =
      .error "Gemini response parsing failed: TypeError".toList := by
  rfl

/-! ## `NativeAI.callOpenAICompatible`: the messages -/

/-- Claim C13: the message array built by `callOpenAICompatible` has exactly two messages:
a system message holding the system prompt, then a user message whose content is the plain
prompt if and only if the media list is empty, and otherwise is the array of one text part
holding the prompt followed by one `image_url` part per media item, in order, with URL
`data:<mime_type>;base64,<data>` (so of length `1 + |media|`). -/
theorem callOpenAICompatible_messages (req : GenerationRequest) (promptText : JSString)
    (mediaParts : List MediaPart) :
    ∃ user : ChatMessage,
      (NativeAI.callOpenAICompatible req promptText mediaParts).request.messages =
        [{ role := "system".toList, content := .plain req.systemPrompt }, user] ∧
      user.role = "user".toList ∧
      (user.content = .plain promptText ↔ mediaParts = []) ∧
      (mediaParts ≠ [] →
        ∃ items, user.content = .parts items ∧ items.length = 1 + mediaParts.length ∧
          items = ContentPart.text promptText :: mediaParts.map (fun m =>
            ContentPart.image_url
              ("data:".toList ++ m.mime_type ++ ";base64,".toList ++ m.data))) := by
  show ∃ user : ChatMessage, chatMessages req promptText mediaParts = _ ∧ _
  unfold chatMessages
  cases mediaParts with
  | nil =>
    refine ⟨{ role := "user".toList, content := .plain promptText }, rfl, rfl, ?_, ?_⟩
    · exact ⟨fun _ => rfl, fun _ => rfl⟩
    · intro h
      exact absurd rfl h
  | cons m ms =>
    refine ⟨{ role := "user".toList, content := .parts (ContentPart.text promptText ::
      (m :: ms).map (fun m => ContentPart.image_url
        ("data:".toList ++ m.mime_type ++ ";base64,".toList ++ m.data))) }, ?_, rfl, ?_, ?_⟩
    · simp only [List.length_cons, gt_iff_lt, Nat.zero_lt_succ, if_true]
      rfl
    · constructor
      · intro h
        cases h
      · intro h
        cases h
    · intro _
      refine ⟨_, rfl, ?_, rfl⟩
      simp only [List.length_cons, List.length_map]
      omega

/-! ## The directories that `getSaves` and `getMusicList` create and enumerate -/

/-- Claim C15, evaluated on the code: on every platform `getSaves` and `getMusicList` ask
the plugin to create `saves` and `sounds` in the directory `DATA` and then enumerate the
same path in `EXTERNAL` (android) or `DOCUMENTS` (any other platform), a different
directory; `saveGame` creates `saves` in the directory it then writes to. -/
theorem getSaves_getMusicList_mkdir_directory (platform : JSString) (now : Nat)
    (filename : JSString) (data : Bool) :
    (LevantAPI.getSaves (recordingEnv platform) []).2 =
        [.mkdir "saves".toList "DATA".toList true,
          .readdir "saves".toList
            (if platform = "android".toList then "EXTERNAL".toList else "DOCUMENTS".toList)] ∧
      (LevantAPI.getMusicList now (recordingEnv platform) []).2 =
        [.mkdir "sounds".toList "DATA".toList true,
          .readdir "sounds".toList
            (if platform = "android".toList then "EXTERNAL".toList else "DOCUMENTS".toList)] ∧
      (LevantAPI.saveGame booleanJSON (recordingEnv platform) filename data []).2 =
        [.mkdir "saves".toList
            (if platform = "android".toList then "EXTERNAL".toList else "DOCUMENTS".toList)
            true,
          .writeFile ("saves/".toList ++ filename)
            (if data then "true".toList else "false".toList)
            (if platform = "android".toList then "EXTERNAL".toList else "DOCUMENTS".toList)
            "utf8".toList] ∧
      "DATA".toList ≠
        (if platform = "android".toList then "EXTERNAL".toList else "DOCUMENTS".toList) := by
  refine ⟨?_, ?_, ?_, ?_⟩
  · by_cases h : platform = "android".toList
    · subst h
      rfl
    · rw [if_neg h]
      unfold LevantAPI.getSaves getSavesTry LevantAPI._getStorageDir
      simp only [destructureCapacitorFs, LevantAPI._getCapacitorFs, recordingEnv,
        Bool.not_true, Bool.false_eq_true, if_false, if_true, if_neg h]
      rfl
  · by_cases h : platform = "android".toList
    · subst h
      rfl
    · rw [if_neg h]
      unfold LevantAPI.getMusicList getMusicListTry LevantAPI._getStorageDir
      simp only [destructureCapacitorFs, LevantAPI._getCapacitorFs, recordingEnv,
        Bool.not_true, Bool.false_eq_true, if_false, if_true, if_neg h]
      rfl
  · by_cases h : platform = "android".toList
    · subst h
      rfl
    · rw [if_neg h]
      unfold LevantAPI.saveGame LevantAPI._getStorageDir
      simp only [destructureCapacitorFs, LevantAPI._getCapacitorFs, recordingEnv,
        Bool.not_true, Bool.false_eq_true, if_false, if_true, if_neg h]
      rfl
  · by_cases h : platform = "android".toList
    · rw [if_pos h]
      decide
    · rw [if_neg h]
      decide

/-! ## A decode failure in `Utils.b64DecodeUnicode` -/

theorem decodeLoop_other (fuel : Nat) (c : Char) (rest : JSString) (h : c ≠ '%') :
    decodeLoop (fuel + 1) (c :: rest) = (decodeLoop fuel rest).map (c :: ·) := by
  rw [decodeLoop, if_pos h]

theorem continuationOctets_length (j : Nat) :
    ∀ (s : JSString) (bs : List Nat) (r : JSString),
      continuationOctets j s = some (bs, r) → r.length ≤ s.length := by
  induction j with
  | zero =>
    intro s bs r h
    rw [continuationOctets] at h
    cases h
    exact Nat.le_refl _
  | succ j ih =>
    intro s bs r h
    cases s with
    | nil =>
      rw [continuationOctets] at h
      cases h
    | cons c s =>
      rw [continuationOctets] at h
      split at h
      · split at h
        · rename_i b bs' r' _ hrec
          cases h
          have := ih _ _ _ hrec
          rw [List.length_drop] at this
          simp only [List.length_cons]
          omega
        · cases h
      · cases h

/-- The fuel of `decodeLoop` is adequate: any fuel from the length of the input on gives
the same outcome, so an error of the model is an error of `Decode`. -/
theorem decodeLoop_fuel (f1 : Nat) :
    ∀ (f2 : Nat) (s : JSString), s.length ≤ f1 → s.length ≤ f2 →
      decodeLoop f1 s = decodeLoop f2 s := by
  induction f1 with
  | zero =>
    intro f2 s h1 _
    have : s = [] := List.length_eq_zero.mp (Nat.le_zero.mp h1)
    subst this
    cases f2 <;> rfl
  | succ a ih =>
    intro f2 s h1 h2
    cases s with
    | nil => cases f2 <;> rfl
    | cons c rest =>
      obtain ⟨b, rfl⟩ : ∃ k, f2 = k + 1 := ⟨f2 - 1, by simp at h2; omega⟩
      simp only [List.length_cons] at h1 h2
      by_cases hc : c = '%'
      · subst hc
        rw [decodeLoop_percent a rest, decodeLoop_percent b rest]
        cases parseHexOctet rest with
        | none => rfl
        | some v =>
          simp only
          have hdrop : (rest.drop 2).length ≤ rest.length := by
            rw [List.length_drop]
            omega
          rw [ih b (rest.drop 2) (by omega) (by omega)]
          cases hco : continuationOctets (leadingOnes v - 1) (rest.drop 2) with
          | none => rfl
          | some p =>
            rcases p with ⟨octets, rest'⟩
            have hlen := continuationOctets_length _ _ _ _ hco
            simp only
            rw [ih b rest' (by omega) (by omega)]
      · rw [decodeLoop_other a c rest hc, decodeLoop_other b c rest hc,
          ih b rest (by omega) (by omega)]

/-- When decoding fails, `Utils.b64DecodeUnicode` returns its argument. -/
theorem b64DecodeUnicode_of_failure (str : JSString)
    (h : (∃ e, atob str = .error e) ∨
      ∃ bin e, atob str = .ok bin ∧
        decodeURIComponent (bin.map percentByte).flatten = .error e) :
    Utils.b64DecodeUnicode str = str := by
  unfold Utils.b64DecodeUnicode
  rcases h with ⟨e, he⟩ | ⟨bin, e, hb, he⟩
  · rw [he]
    rfl
  · rw [hb]
    show (match decodeURIComponent (bin.map percentByte).flatten with
      | .ok r => r
      | .error _ => str) = str
    rw [he]

theorem generateAI_vendor (u : UnicodeLower) (req : GenerationRequest) :
    ∃ call, LevantAPI.generateAI u true req = .vendor call := by
  unfold LevantAPI.generateAI
  simp only [Bool.not_true, Bool.false_eq_true, if_false]
  split
  · exact ⟨_, rfl⟩
  · split <;> exact ⟨_, rfl⟩

/-- Claim C12, as amended: a decode failure does not propagate. For a text-type attachment
whose cleaned payload is malformed base64, or decodes to bytes that are not valid UTF-8,
`Utils.b64DecodeUnicode` returns the cleaned payload unchanged; `Utils.processAttachments`
returns its result, whose text holds the undecoded payload within the FILE delimiter, and
native-mode `generateAI` goes on to call a vendor client with that text in the prompt. -/
theorem processAttachments_decode_failure (atts : List Attachment) (allowImage : Bool)
    (att : Attachment) (hmem : att ∈ atts)
    (himg : startsWith att.type "image/".toList = false)
    (htxt : startsWith att.type "text/".toList = true ∨ endsWith att.name ".txt".toList = true ∨
      endsWith att.name ".md".toList = true ∨ endsWith att.name ".json".toList = true ∨
      endsWith att.name ".py".toList = true)
    (hfail : (∃ e, atob (cleanData att.data) = .error e) ∨
      ∃ bin e, atob (cleanData att.data) = .ok bin ∧
        decodeURIComponent (bin.map percentByte).flatten = .error e) :
    Utils.b64DecodeUnicode (cleanData att.data) = cleanData att.data ∧
      includes (Utils.processAttachments (some atts) allowImage).textPart
        ("\n\n=== FILE: ".toList ++ att.name ++ " ===\n".toList ++ cleanData att.data ++
          "\n".toList) = true ∧
      (∀ (u : UnicodeLower) (req : GenerationRequest), req.attachments = some atts →
        ∃ call, LevantAPI.generateAI u true req = .vendor call ∧
          includes (LevantAPI.generateAI u true req).promptText
            ("\n\n=== FILE: ".toList ++ att.name ++ " ===\n".toList ++ cleanData att.data ++
              "\n".toList) = true) := by
  have hdec := b64DecodeUnicode_of_failure _ hfail
  have htf : isTextFile att = true := by
    simpa [isTextFile, Bool.or_assoc] using htxt
  have hseg : ∀ allow, includes (Utils.processAttachments (some atts) allow).textPart
      ("\n\n=== FILE: ".toList ++ att.name ++ " ===\n".toList ++ cleanData att.data ++
        "\n".toList) = true := by
    intro allow
    rw [includes_iff, processAttachments_textPart]
    apply List.infix_of_mem_flatten
    rw [List.mem_map]
    refine ⟨att, hmem, ?_⟩
    rw [processOne_textFile allow att himg htf, hdec]
    rfl
  refine ⟨hdec, hseg allowImage, fun u req hreq => ?_⟩
  obtain ⟨call, hcall⟩ := generateAI_vendor u req
  refine ⟨call, hcall, ?_⟩
  rw [(generateAI_native u req).2, hreq]
  exact includes_fullContext req _ _ (hseg _)

/-- Witness of C12: a text file whose payload `!!!` is not base64. -/
theorem processAttachments_decode_failure_witness :
    Utils.b64DecodeUnicode (cleanData "!!!".toList) = cleanData "!!!".toList ∧
      includes (Utils.processAttachments
          (some [⟨"n.txt".toList, "text/plain".toList, "!!!".toList⟩]) false).textPart
        ("\n\n=== FILE: ".toList ++ "n.txt".toList ++ " ===\n".toList ++
          cleanData "!!!".toList ++ "\n".toList) = true :=
  ⟨(processAttachments_decode_failure
      [⟨"n.txt".toList, "text/plain".toList, "!!!".toList⟩] false
      ⟨"n.txt".toList, "text/plain".toList, "!!!".toList⟩ (by simp) (by decide)
      (Or.inl (by decide)) (Or.inl ⟨_, rfl⟩)).1,
    (processAttachments_decode_failure
      [⟨"n.txt".toList, "text/plain".toList, "!!!".toList⟩] false
      ⟨"n.txt".toList, "text/plain".toList, "!!!".toList⟩ (by simp) (by decide)
      (Or.inl (by decide)) (Or.inl ⟨_, rfl⟩)).2.1⟩

/-- Counterexample to C12 as stated: for a text file whose payload is not base64 (`!!!`), and
for one whose payload decodes to the byte `FF`, which is not UTF-8 (`/w==`), decoding fails
and `Utils.processAttachments` returns a result holding the payloads as they are; native-mode
`generateAI` goes on to call the vendor client. -/
theorem processAttachments_decode_failure_returns :
    atob "!!!".toList = .error "InvalidCharacterError".toList ∧
      atob "/w==".toList = .ok [255] ∧
      decodeURIComponent ([255].map percentByte).flatten = .error "URIError".toList ∧
      Utils.processAttachments
          (some [⟨"n.txt".toList, "text/plain".toList, "!!!".toList⟩,
            ⟨"m.md".toList, "".toList, "/w==".toList⟩]) false =
        { textPart := "\n\n=== FILE: n.txt ===\n!!!\n\n\n=== FILE: m.md ===\n/w==\n".toList,
          mediaParts := [] } ∧
      LevantAPI.generateAI (fun _ c _ => [c]) true
          (scenarioRequest "openai".toList "gpt-4o".toList
            [⟨"n.txt".toList, "text/plain".toList, "!!!".toList⟩]) =
        .vendor (.callOpenAICompatible
          (scenarioRequest "openai".toList "gpt-4o".toList
            [⟨"n.txt".toList, "text/plain".toList, "!!!".toList⟩])
          ("=== CONTEXT ===\n\n\n\n=== FILE: n.txt ===\n!!!\n\n=== INSTRUCTION ===\n").toList
          []) := by
  refine ⟨rfl, rfl, rfl, by decide, rfl⟩

/-! ## `LevantAPI.getSaves`: the names listed and their order -/

theorem codeUnitsLe_total (a : List Nat) :
    ∀ b, codeUnitsLe a b = true ∨ codeUnitsLe b a = true := by
  induction a with
  | nil =>
    intro b
    exact Or.inl (by rw [codeUnitsLe])
  | cons x xs ih =>
    intro b
    cases b with
    | nil => exact Or.inr (by rw [codeUnitsLe])
    | cons y ys =>
      simp only [codeUnitsLe, Bool.or_eq_true, Bool.and_eq_true, decide_eq_true_eq,
        beq_iff_eq]
      rcases Nat.lt_trichotomy x y with h | h | h
      · exact Or.inl (Or.inl h)
      · subst h
        rcases ih ys with h' | h'
        · exact Or.inl (Or.inr ⟨rfl, h'⟩)
        · exact Or.inr (Or.inr ⟨rfl, h'⟩)
      · exact Or.inr (Or.inl h)

theorem codeUnitsLe_trans (a : List Nat) :
    ∀ b c, codeUnitsLe a b = true → codeUnitsLe b c = true → codeUnitsLe a c = true := by
  induction a with
  | nil =>
    intro b c _ _
    rw [codeUnitsLe]
  | cons x xs ih =>
    intro b c hab hbc
    cases b with
    | nil => rw [codeUnitsLe] at hab; cases hab
    | cons y ys =>
      cases c with
      | nil => rw [codeUnitsLe] at hbc; cases hbc
      | cons z zs =>
        simp only [codeUnitsLe, Bool.or_eq_true, Bool.and_eq_true, decide_eq_true_eq,
          beq_iff_eq] at hab hbc ⊢
        rcases hab with h1 | ⟨h1, h1'⟩
        · rcases hbc with h2 | ⟨h2, _⟩
          · exact Or.inl (by omega)
          · exact Or.inl (by omega)
        · rcases hbc with h2 | ⟨h2, h2'⟩
          · exact Or.inl (by omega)
          · exact Or.inr ⟨by omega, ih ys zs h1' h2'⟩

theorem sorted_sort (names : List JSString) : List.Sorted sortLe (sort names) := by
  haveI : IsTotal JSString sortLe := ⟨fun a b => codeUnitsLe_total (utf16 a) (utf16 b)⟩
  haveI : IsTrans JSString sortLe :=
    ⟨fun a b c hab hbc => codeUnitsLe_trans (utf16 a) (utf16 b) (utf16 c) hab hbc⟩
  exact List.sorted_insertionSort sortLe names

/-- Claim C14: in native-app mode, for every directory listing returned by the plugin, the
files list returned by `getSaves` holds exactly the entry names that end in `.json`, each as
often as it is listed, and is sorted in ascending order of UTF-16 code units. -/
theorem getSaves_files (σ : Type) (env : Env σ) (st : σ) (m : CapacitorFs σ)
    (dir : JSString) (entries : List FileInfo) (hn : env.IS_NATIVE_APP = true)
    (hm : destructureCapacitorFs env = .ok m) (hd : LevantAPI._getStorageDir env = .ok dir)
    (hr : (m.Filesystem.readdir "saves".toList dir
      (m.Filesystem.mkdir "saves".toList m.Directory.Data true st).2).1 = .ok entries) :
    ∃ files, (LevantAPI.getSaves env st).1 = .done (.ok { files := files }) ∧
      (∀ name, name ∈ files ↔
        (∃ f ∈ entries, f.name = name) ∧ endsWith name ".json".toList = true) ∧
      files.Perm ((entries.map (·.name)).filter (endsWith · ".json".toList)) ∧
      List.Pairwise (fun a b => codeUnitsLe (utf16 a) (utf16 b) = true) files := by
  refine ⟨_, getSaves_of_listing env st m dir entries hn hm hd hr, fun name => ?_,
    List.perm_insertionSort sortLe _, sorted_sort _⟩
  rw [mem_sort, List.mem_filter, List.mem_map]

/-- Witness of C14: a listing of three entries, two of them saves, in the wrong order. -/
theorem getSaves_files_witness :
    ∃ files, (LevantAPI.getSaves existingDirectoryEnv
        [⟨"b.json".toList⟩, ⟨"a.json".toList⟩, ⟨"notes.txt".toList⟩]).1 =
          .done (.ok { files := files }) ∧
      (∀ name, name ∈ files ↔
        (∃ f ∈ [(⟨"b.json".toList⟩ : FileInfo), ⟨"a.json".toList⟩, ⟨"notes.txt".toList⟩],
          f.name = name) ∧ endsWith name ".json".toList = true) ∧
      files.Perm (([(⟨"b.json".toList⟩ : FileInfo), ⟨"a.json".toList⟩,
        ⟨"notes.txt".toList⟩].map (·.name)).filter (endsWith · ".json".toList)) ∧
      List.Pairwise (fun a b => codeUnitsLe (utf16 a) (utf16 b) = true) files :=
  getSaves_files (List FileInfo) existingDirectoryEnv
    [⟨"b.json".toList⟩, ⟨"a.json".toList⟩, ⟨"notes.txt".toList⟩]
    { Filesystem := existingDirectoryPlugin, Directory := bridgeDirectory,
      Encoding := bridgeEncoding }
    "EXTERNAL".toList [⟨"b.json".toList⟩, ⟨"a.json".toList⟩, ⟨"notes.txt".toList⟩]
    rfl rfl rfl rfl

end Levant
